import Mathlib

/-!
Verification of the metadata-extraction core of Get_HL_meta.py.

The program consumes XML parsed by xmltodict into nested Python values:
None, strings, lists, and (insertion-ordered) dicts with string keys.
We embed that value universe as the inductive type Node below; dicts are
association lists in insertion order (Python dicts preserve insertion
order and have pairwise distinct keys; functions that build dicts here,
such as strip_ns, maintain that invariant via dictInsert).

Python string operations are modelled on the character list of the
string (ASCII fragment of the Unicode behaviour, which covers every
value the claims exercise): lower, strip, startswith, split and the
substring test are defined directly on List Char so that all
definitions compute by kernel reduction.

Python code that can raise an exception (attribute access patterns of
the form (d.get("@k") or "").lower() applied to a truthy non-string
value, and a .strip() on a possibly absent text) is embedded with
result type Except Unit, where Except.error () marks a raised
exception; code that cannot raise keeps a plain result type.
-/

namespace GetHLMeta

/-- The xmltodict value universe: None, str, list, dict (assoc list in
insertion order). -/
inductive Node : Type where
  | null : Node
  | str (s : String) : Node
  | list (l : List Node) : Node
  | dict (d : List (String × Node)) : Node

mutual
/-- Boolean structural equality on Node. -/
def nodeBEq : Node → Node → Bool
  | .null, .null => true
  | .str a, .str b => a == b
  | .list a, .list b => nodeListBEq a b
  | .dict a, .dict b => nodePairsBEq a b
  | _, _ => false
termination_by structural n => n

def nodeListBEq : List Node → List Node → Bool
  | [], [] => true
  | a :: as1, b :: bs1 => nodeBEq a b && nodeListBEq as1 bs1
  | _, _ => false
termination_by structural l => l

def nodePairsBEq : List (String × Node) → List (String × Node) → Bool
  | [], [] => true
  | (k1, v1) :: as1, (k2, v2) :: bs1 => k1 == k2 && nodeBEq v1 v2 && nodePairsBEq as1 bs1
  | _, _ => false
termination_by structural l => l
end

mutual
theorem nodeBEq_iff : ∀ a b : Node, nodeBEq a b = true ↔ a = b
  | .null, .null => by simp [nodeBEq]
  | .null, .str _ => by simp [nodeBEq]
  | .null, .list _ => by simp [nodeBEq]
  | .null, .dict _ => by simp [nodeBEq]
  | .str _, .null => by simp [nodeBEq]
  | .str _, .str _ => by simp [nodeBEq]
  | .str _, .list _ => by simp [nodeBEq]
  | .str _, .dict _ => by simp [nodeBEq]
  | .list _, .null => by simp [nodeBEq]
  | .list _, .str _ => by simp [nodeBEq]
  | .list a, .list b => by simp [nodeBEq, nodeListBEq_iff a b]
  | .list _, .dict _ => by simp [nodeBEq]
  | .dict _, .null => by simp [nodeBEq]
  | .dict _, .str _ => by simp [nodeBEq]
  | .dict _, .list _ => by simp [nodeBEq]
  | .dict a, .dict b => by simp [nodeBEq, nodePairsBEq_iff a b]
termination_by structural a => a

theorem nodeListBEq_iff : ∀ a b : List Node, nodeListBEq a b = true ↔ a = b
  | [], [] => by simp [nodeListBEq]
  | [], _ :: _ => by simp [nodeListBEq]
  | _ :: _, [] => by simp [nodeListBEq]
  | a :: as1, b :: bs1 => by
      simp [nodeListBEq, nodeBEq_iff a b, nodeListBEq_iff as1 bs1]
termination_by structural a => a

theorem nodePairsBEq_iff : ∀ a b : List (String × Node), nodePairsBEq a b = true ↔ a = b
  | [], [] => by simp [nodePairsBEq]
  | [], _ :: _ => by simp [nodePairsBEq]
  | _ :: _, [] => by simp [nodePairsBEq]
  | (k1, v1) :: as1, (k2, v2) :: bs1 => by
      simp [nodePairsBEq, nodeBEq_iff v1 v2, nodePairsBEq_iff as1 bs1, Prod.ext_iff,
        and_assoc]
termination_by structural a => a
end

instance : DecidableEq Node := fun a b => decidable_of_iff (nodeBEq a b = true) (nodeBEq_iff a b)

instance {ε α : Type} [DecidableEq ε] [DecidableEq α] : DecidableEq (Except ε α) := fun x y =>
  match x, y with
  | .ok a, .ok b => decidable_of_iff (a = b) (by simp)
  | .error a, .error b => decidable_of_iff (a = b) (by simp)
  | .ok _, .error _ => .isFalse (by simp)
  | .error _, .ok _ => .isFalse (by simp)

/-- Python truthiness restricted to the Node universe: None, "", [],
and the empty dict are falsy; everything else is truthy. -/
def truthy : Node → Bool
  | .null => false
  | .str s => s != ""
  | .list l => !l.isEmpty
  | .dict d => !d.isEmpty

/-- as_list: None to [], a list to itself, anything else to a one-element list. -/
def as_list : Node → List Node
  | .null => []
  | .list l => l
  | x => [x]

-- ---------------- Python string operations (ASCII model) ----------------

/-- Python str.lower (ASCII model). -/
def pyLower (s : String) : String := String.mk (s.data.map Char.toLower)

/-- Python str.strip with no argument: drop leading and trailing whitespace. -/
def pyStrip (s : String) : String :=
  String.mk (((s.data.dropWhile Char.isWhitespace).reverse.dropWhile Char.isWhitespace).reverse)

/-- Python str.startswith. -/
def pyStartsWith (s p : String) : Bool := p.data.isPrefixOf s.data

/-- Substring search on character lists (Python "sub in s", s.find(sub) >= 0). -/
def listContainsSub (needle : List Char) : List Char → Bool
  | [] => needle.isPrefixOf []
  | h :: t => needle.isPrefixOf (h :: t) || listContainsSub needle t

/-- Python "sub in s". -/
def pyContains (s sub : String) : Bool := listContainsSub sub.data s.data

/-- The characters after the first colon, if the list has a colon. -/
def afterFirstColon : List Char → Option (List Char)
  | [] => none
  | c :: rest => if c = ':' then some rest else afterFirstColon rest

/-- k.split(":", 1)[1] if ":" in k else k  (used by strip_ns). -/
def stripKey (k : String) : String :=
  match afterFirstColon k.data with
  | some rest => String.mk rest
  | none => k

/-- k.split(":")[-1]: the text after the last colon (k itself when it has
no colon). Used by the namespace-insensitive lookups. -/
def localName (k : String) : String :=
  String.mk ((k.data.reverse.takeWhile (fun c => c != ':')).reverse)

-- ---------------- Python repr / str ----------------

def hexDigit (n : Nat) : Char :=
  if n < 10 then Char.ofNat (n + '0'.toNat)
  else if n < 16 then Char.ofNat (n - 10 + 'a'.toNat)
  else '0'

/-- Escape one character inside a Python string repr with the given quote. -/
def pyEscapeChar (quote : Char) (c : Char) : List Char :=
  if c = '\\' then ['\\', '\\']
  else if c = quote then ['\\', quote]
  else if c = '\n' then ['\\', 'n']
  else if c = '\r' then ['\\', 'r']
  else if c = '\t' then ['\\', 't']
  else if c.toNat < 32 || c.toNat = 127 then
    ['\\', 'x', hexDigit (c.toNat / 16), hexDigit (c.toNat % 16)]
  else [c]

/-- Python repr of a string (ASCII model): single quotes, switching to
double quotes when the text has a single quote but no double quote. -/
def pyReprStr (s : String) : String :=
  let q : Char := if s.data.contains '\'' && !(s.data.contains '"') then '"' else '\''
  String.mk (q :: (s.data.flatMap (pyEscapeChar q)) ++ [q])

mutual
/-- Python repr restricted to the Node universe. -/
def pyRepr : Node → String
  | .null => "None"
  | .str s => pyReprStr s
  | .list l => "[" ++ String.intercalate ", " (pyReprList l) ++ "]"
  | .dict d => "\x7b" ++ String.intercalate ", " (pyReprPairs d) ++ "\x7d"
termination_by structural n => n

def pyReprList : List Node → List String
  | [] => []
  | x :: xs => pyRepr x :: pyReprList xs
termination_by structural l => l

def pyReprPairs : List (String × Node) → List String
  | [] => []
  | (k, v) :: rest => (pyReprStr k ++ ": " ++ pyRepr v) :: pyReprPairs rest
termination_by structural l => l
end

/-- Python str() restricted to the Node universe. -/
def pyStr : Node → String
  | .str s => s
  | n => pyRepr n

-- ---------------- tree normalizer and accessors ----------------

/-- Python dict assignment out[k] = v on an assoc list: replace the value
at an existing key in place, else append the pair. -/
def dictInsert : List (String × Node) → String → Node → List (String × Node)
  | [], k, v => [(k, v)]
  | (k1, v1) :: rest, k, v =>
    if k1 = k then (k, v) :: rest else (k1, v1) :: dictInsert rest k v

mutual
/-- strip_ns: strip namespace text before the first colon from every dict
key, recursively; dict rebuilding follows the Python out[nk] = ... loop. -/
def strip_ns : Node → Node
  | .null => .null
  | .str s => .str s
  | .list l => .list (strip_ns_list l)
  | .dict d => .dict (strip_ns_go [] d)
termination_by structural n => n

def strip_ns_list : List Node → List Node
  | [] => []
  | x :: xs => strip_ns x :: strip_ns_list xs
termination_by structural l => l

def strip_ns_go : List (String × Node) → List (String × Node) → List (String × Node)
  | acc, [] => acc
  | acc, (k, v) :: rest => strip_ns_go (dictInsert acc (stripKey k) (strip_ns v)) rest
termination_by structural _ l => l
end

/-- First value at an exactly matching key (Python "key in d" / d[key];
Python dict keys are distinct, so first match is the match). -/
def pairsLookup : List (String × Node) → String → Option Node
  | [], _ => none
  | (k1, v) :: rest, k => if k1 = k then some v else pairsLookup rest k

/-- First value whose key has the queried local name (the fallback scan
shared by nget and get_text). -/
def findLocal (l : List (String × Node)) (k : String) : Option Node :=
  l.findSome? (fun p => if localName p.1 = k then some p.2 else none)

/-- nget: namespace-agnostic get, exact key first, then the first key
whose text after the last colon equals the queried key. A missing key
yields Node.null, which is indistinguishable from a stored None in
Python (both are returned as None). -/
def nget (d : Node) (key : String) : Node :=
  match d with
  | .dict l =>
    match pairsLookup l key with
    | some v => v
    | none => (findLocal l key).getD .null
  | _ => .null

/-- Keys of a get_text path: string keys or integer list indices. -/
inductive PathKey : Type where
  | key (s : String) : PathKey
  | idx (i : Int) : PathKey

/-- Shorthand for a string path key. -/
def pk (s : String) : PathKey := .key s

/-- Terminal text resolution of get_text: a dict yields str() of a
non-None value at "#text", else at "text", else None; a string yields
itself; anything else yields None. -/
def textOf : Node → Option String
  | .str s => some s
  | .dict l =>
    (match pairsLookup l "#text" with
     | some v => if v ≠ Node.null then some (pyStr v) else
        (match pairsLookup l "text" with
         | some w => if w ≠ Node.null then some (pyStr w) else none
         | none => none)
     | none =>
        (match pairsLookup l "text" with
         | some w => if w ≠ Node.null then some (pyStr w) else none
         | none => none))
  | _ => none

/-- get_text: walk a path of namespace-insensitive keys and integer
indices, then resolve terminal text; any failed step yields None. -/
def get_text : Node → List PathKey → Option String
  | cur, [] => textOf cur
  | cur, (.key k) :: rest =>
    (match cur with
     | .dict l =>
       (match pairsLookup l k with
        | some v => get_text v rest
        | none =>
          (match findLocal l k with
           | some v => get_text v rest
           | none => none))
     | _ => none)
  | cur, (.idx i) :: rest =>
    (match cur with
     | .list l => if 0 ≤ i ∧ i < (l.length : Int) then get_text (l.getD i.toNat .null) rest else none
     | _ => none)

-- ---------------- join / dedup helpers ----------------

/-- dict.fromkeys deduplication: keep the first occurrence of each
element, preserving order. -/
def pyDedupAux : List String → List String → List String
  | _, [] => []
  | seen, x :: xs => if seen.contains x then pyDedupAux seen xs else x :: pyDedupAux (x :: seen) xs

/-- dict.fromkeys deduplication (first occurrence wins). -/
def pyDedup (l : List String) : List String := pyDedupAux [] l

/-- join_clean: strip each truthy entry whose stripped form is truthy,
deduplicate preserving first-seen order, join with "; ". Call sites pass
lists of (non-optional) strings. -/
def join_clean (values : List String) : String :=
  String.intercalate "; " (pyDedup ((values.filter (fun v => v != "" && pyStrip v != "")).map pyStrip))

/-- Truthiness of an optional string (None and "" are falsy). -/
def optTruthy : Option String → Bool
  | some s => s != ""
  | none => false

/-- Keep an optional string only when truthy (the pervasive
"if txt: xs.append(txt)" idiom). -/
def truthyOptFilter (o : Option String) : Option String :=
  match o with
  | some t => if t != "" then some t else none
  | none => none

/-- The idiom get_text(v) if isinstance(v, dict) else (str(v) if v is
not None else None). -/
def scalarText (v : Node) : Option String :=
  match v with
  | .dict _ => get_text v []
  | .null => none
  | x => some (pyStr x)

/-- The attribute pattern (d.get(key) or ""): missing or falsy value
gives ""; a truthy non-string value raises at the .lower()/.strip()
that always follows this pattern in the source, so it is an error here.
A non-dict receiver gives "" (every call site guards with isinstance). -/
def attrOr (n : Node) (key : String) : Except Unit String :=
  match n with
  | .dict l =>
    (match pairsLookup l key with
     | some v => if truthy v then (match v with | .str s => .ok s | _ => .error ()) else .ok ""
     | none => .ok "")
  | _ => .ok ""

-- ---------------- field extractors ----------------

/-- Title composition shared by extract_title and
extract_variant_titles: space-join the truthy entries of [nonSort,
title], then append ": " and the subtitle when truthy. -/
def compose_title (non t sub : Option String) : String :=
  let parts := ([non, t].filterMap id).filter (fun x => x != "")
  let full := String.intercalate " " parts
  match sub with
  | some s => if s != "" then full ++ ": " ++ s else full
  | none => full

/-- The titleInfo type filter of extract_title: no type attribute (or a
falsy one) or type "translated" (lowercased). -/
def titleTypeOk (ttype : String) : Bool := ttype == "" || ttype == "translated"

/-- The titleInfo type filter of extract_variant_titles. -/
def variantTypeOk (ttype : String) : Bool :=
  ttype == "alternative" || ttype == "translated" || ttype == "uniform" || ttype == "abbreviated"

def extract_title_loop : List Node → Except Unit (List String)
  | [] => .ok []
  | ti :: rest => do
    let t := get_text ti [pk "title"]
    let non := get_text ti [pk "nonSort"]
    let sub := get_text ti [pk "subTitle"]
    let ttype ← (attrOr ti "@type").map pyLower
    let tail ← extract_title_loop rest
    if optTruthy t && titleTypeOk ttype then
      pure (compose_title non t sub :: tail)
    else pure tail

/-- extract_title: the first composed titleInfo entry whose type is
absent or "translated" and whose title text is truthy; "" if none. -/
def extract_title (mods : Node) : Except Unit String :=
  (extract_title_loop (as_list (nget mods "titleInfo"))).map (fun l => l.headD "")

def extract_variant_loop : List Node → Except Unit (List String)
  | [] => .ok []
  | ti :: rest => do
    let ttype ← (attrOr ti "@type").map pyLower
    if variantTypeOk ttype then
      let t := get_text ti [pk "title"]
      let non := get_text ti [pk "nonSort"]
      let sub := get_text ti [pk "subTitle"]
      let tail ← extract_variant_loop rest
      if optTruthy t || optTruthy non || optTruthy sub then
        (let full := compose_title non t sub
         if full != "" then pure (full :: tail) else pure tail)
      else pure tail
    else extract_variant_loop rest

/-- extract_variant_titles: composed titleInfo entries typed
alternative, translated, uniform or abbreviated, join_clean-joined. -/
def extract_variant_titles (mods : Node) : Except Unit String :=
  (extract_variant_loop (as_list (nget mods "titleInfo"))).map join_clean

/-- The per-namePart text of _display_name_with_dates:
(get_text(np) if isinstance(np, dict) else (str(np) if np is not None
else "")).strip() - raises when np is a dict with no resolvable text,
because None.strip() is an attribute error. -/
def namePartText (np : Node) : Except Unit String :=
  match np with
  | .dict _ =>
    (match get_text np [] with
     | some s => .ok (pyStrip s)
     | none => .error ())
  | .null => .ok ""
  | x => .ok (pyStrip (pyStr x))

/-- Collect (non-date parts, date parts) of a namePart list in document
order, skipping empty texts. -/
def displayParts : List Node → Except Unit (List String × List String)
  | [] => .ok ([], [])
  | np :: rest => do
    let txt ← namePartText np
    if txt == "" then displayParts rest
    else do
      let tp ← (attrOr np "@type").map pyLower
      let (others, dates) ← displayParts rest
      if tp == "date" then pure (others, txt :: dates) else pure (txt :: others, dates)

/-- _display_name_with_dates: space-join non-date name parts (falling
back to displayForm when there are none), then append date parts in
parentheses. -/
def display_name_with_dates (n : Node) : Except Unit String := do
  let (others, dates) ← displayParts (as_list (nget n "namePart"))
  let others2 :=
    if others.isEmpty then
      (let disp := pyStrip ((get_text n [pk "displayForm"]).getD "")
       if disp != "" then [disp] else [])
    else others
  let name := pyStrip (String.intercalate " " others2)
  pure (if !dates.isEmpty then name ++ " (" ++ String.intercalate "; " dates ++ ")" else name)

/-- Creator-like role codes. -/
def want_codes : List String := ["aut", "cmp", "cre", "prf", "voc"]

/-- Creator-like role words. -/
def want_texts : List String :=
  ["author", "composer", "creator", "performer", "vocalist", "singer", "voice"]

/-- Scan the roleTerm entries of one role: a coded term in want_codes,
or any term whose text is in want_texts, marks a creator. -/
def roleTermsCreator : List Node → Except Unit Bool
  | [] => .ok false
  | rt :: rest => do
    let t := pyLower (pyStrip ((get_text rt []).getD ""))
    let isCode ← (match rt with
      | .dict _ => (attrOr rt "@type").map (fun s => pyLower s == "code")
      | _ => .ok false)
    let restb ← roleTermsCreator rest
    pure ((isCode && want_codes.contains t) || want_texts.contains t || restb)

def rolesCreator : List Node → Except Unit Bool
  | [] => .ok false
  | role :: rest => do
    let b1 ← roleTermsCreator (as_list (nget role "roleTerm"))
    let b2 ← rolesCreator rest
    pure (b1 || b2)

def extract_creators_loop : List Node → Except Unit (List String)
  | [] => .ok []
  | n :: rest => do
    let ntype ← (attrOr n "@type").map pyLower
    if ntype != "" && ntype != "personal" then extract_creators_loop rest
    else do
      let isc ← rolesCreator (as_list (nget n "role"))
      let keep ← (if isc then pure true else do
        let usage ← (attrOr n "@usage").map pyLower
        pure (usage == "primary"))
      if keep then do
        let disp ← display_name_with_dates n
        let tail ← extract_creators_loop rest
        pure (if disp != "" then disp :: tail else tail)
      else extract_creators_loop rest

/-- extract_creators: names of personal (or untyped) type whose role
terms match the creator sets, or (failing that) whose usage attribute is
primary; display forms deduplicated and joined with "; ". -/
def extract_creators (mods : Node) : Except Unit String :=
  (extract_creators_loop (as_list (nget mods "name"))).map
    (fun out => String.intercalate "; " (pyDedup out))

def personal_split_loop : List Node → Except Unit (List String)
  | [] => .ok []
  | n :: rest => do
    let ntype ← (attrOr n "@type").map pyLower
    if ntype != "" && ntype != "personal" then personal_split_loop rest
    else do
      let disp ← display_name_with_dates n
      let tail ← personal_split_loop rest
      pure (if disp != "" then disp :: tail else tail)

/-- extract_personal_names_split: all personal (or untyped) name display
forms, deduplicated; first three positions plus a "; "-joined rest. -/
def extract_personal_names_split (mods : Node) :
    Except Unit (String × String × String × String) :=
  (personal_split_loop (as_list (nget mods "name"))).map (fun collected =>
    let names := pyDedup collected
    (names.getD 0 "", names.getD 1 "", names.getD 2 "",
     if names.length > 3 then String.intercalate "; " (names.drop 3) else ""))

/-- The corporate-name condition: type "corporate", or no type while
get_text(n, "namePart") is truthy and the first namePart entry is not
the empty string. The head lookup cannot fail: the get_text guard
implies the namePart list is nonempty. -/
def corporateCond (n : Node) (ntype : String) : Except Unit Bool :=
  if ntype == "corporate" then .ok true
  else if ntype == "" then
    (if optTruthy (get_text n [pk "namePart"]) then
      (match (as_list (nget n "namePart")).head? with
       | some h => .ok (match h with | .str s => s != "" | _ => true)
       | none => .error ())
     else .ok false)
  else .ok false

def extract_corporate_loop : List Node → Except Unit (List String)
  | [] => .ok []
  | n :: rest => do
    let ntype ← (attrOr n "@type").map pyLower
    let cond ← corporateCond n ntype
    if cond then do
      let disp ← display_name_with_dates n
      let tail ← extract_corporate_loop rest
      pure (if disp != "" then disp :: tail else tail)
    else extract_corporate_loop rest

/-- extract_corporate_names: names typed corporate, or untyped names
with a truthy nonempty first namePart, displayed like personal names. -/
def extract_corporate_names (mods : Node) : Except Unit String :=
  (extract_corporate_loop (as_list (nget mods "name"))).map
    (fun out => String.intercalate "; " (pyDedup out))

def extract_publisher_loop : List Node → String
  | [] => ""
  | oi :: rest =>
    (match get_text oi [pk "publisher"] with
     | some p => if p != "" then p else extract_publisher_loop rest
     | none => extract_publisher_loop rest)

/-- extract_publisher: the first truthy publisher text across originInfo
groups. -/
def extract_publisher (mods : Node) : String :=
  extract_publisher_loop (as_list (nget mods "originInfo"))

def placeTermsTexts : List Node → List String
  | [] => []
  | pt :: rest =>
    (match get_text pt [] with
     | some t => if t != "" then t :: placeTermsTexts rest else placeTermsTexts rest
     | none => placeTermsTexts rest)

def placeLoop : List Node → List String
  | [] => []
  | pl :: rest =>
    (match get_text pl [pk "placeTerm"] with
     | some txt =>
       if txt != "" then txt :: placeLoop rest
       else placeTermsTexts (as_list (nget pl "placeTerm")) ++ placeLoop rest
     | none => placeTermsTexts (as_list (nget pl "placeTerm")) ++ placeLoop rest)

/-- extract_place: direct placeTerm text per place, else the texts of
the nested placeTerm variants; join_clean across originInfo groups. -/
def extract_place (mods : Node) : String :=
  join_clean ((as_list (nget mods "originInfo")).flatMap
    (fun oi => placeLoop (as_list (nget oi "place"))))

/-- extract_date: dateIssued, dateCreated, dateOther values per
originInfo, in that key order, join_clean-joined. -/
def extract_date (mods : Node) : String :=
  join_clean ((as_list (nget mods "originInfo")).flatMap (fun oi =>
    ["dateIssued", "dateCreated", "dateOther"].flatMap (fun k =>
      (as_list (nget oi k)).filterMap (fun v => truthyOptFilter (scalarText v)))))

/-- extract_language: languageTerm texts, join_clean-joined. -/
def extract_language (mods : Node) : String :=
  join_clean ((as_list (nget mods "language")).flatMap (fun lang =>
    (as_list (nget lang "languageTerm")).filterMap (fun lt => truthyOptFilter (get_text lt []))))

/-- extract_type_of_resource. -/
def extract_type_of_resource (mods : Node) : String :=
  join_clean ((as_list (nget mods "typeOfResource")).filterMap
    (fun tor => truthyOptFilter (scalarText tor)))

/-- extract_physical_description: extent, form, note, internetMediaType
values per physicalDescription group. -/
def extract_physical_description (mods : Node) : String :=
  join_clean ((as_list (nget mods "physicalDescription")).flatMap (fun pd =>
    ["extent", "form", "note", "internetMediaType"].flatMap (fun k =>
      (as_list (nget pd k)).filterMap (fun v => truthyOptFilter (scalarText v)))))

/-- extract_keywords: topic, geographic, temporal, genre values plus
namePart values of names nested under each subject. -/
def extract_keywords (mods : Node) : String :=
  join_clean ((as_list (nget mods "subject")).flatMap (fun subj =>
    (["topic", "geographic", "temporal", "genre"].flatMap (fun k =>
      (as_list (nget subj k)).filterMap (fun v => truthyOptFilter (scalarText v))))
    ++ ((as_list (nget subj "name")).flatMap (fun nm =>
      (as_list (nget nm "namePart")).filterMap (fun np => truthyOptFilter (scalarText np))))))

def repoVals (loc : Node) : List String :=
  (match truthyOptFilter (get_text loc [pk "physicalLocation"]) with
   | some p => [p]
   | none => [])
  ++ (as_list (nget loc "physicalLocation")).filterMap (fun pl => truthyOptFilter (get_text pl []))

def callVals (loc : Node) : List String :=
  (as_list (nget loc "shelfLocator")).filterMap (fun sl => truthyOptFilter (get_text sl []))

/-- extract_repository_and_callnum: physicalLocation values (direct text
and per-entry texts) and shelfLocator values, each join_clean-joined. -/
def extract_repository_and_callnum (mods : Node) : String × String :=
  let locs := as_list (nget mods "location")
  (join_clean (locs.flatMap repoVals), join_clean (locs.flatMap callVals))

def issue_loop : List Node → Except Unit (List String)
  | [] => .ok []
  | idn :: rest => do
    let t ← (attrOr idn "@type").map pyLower
    let val := scalarText idn
    let tail ← issue_loop rest
    pure (match val with
      | some v => if v != "" && t == "issue number" then v :: tail else tail
      | none => tail)

/-- extract_issue_number: identifier entries typed "issue number"
(case-insensitive), join_clean-joined. -/
def extract_issue_number (mods : Node) : Except Unit String :=
  (issue_loop (as_list (nget mods "identifier"))).map join_clean

/-- The regex search for (99\d\x7b14,\x7d): leftmost position where
"99" is followed by at least 14 digits; the greedy match takes the
whole following digit run. -/
def digitRun99 : List Char → Option (List Char)
  | [] => none
  | c :: rest =>
    (match c, rest with
     | '9', '9' :: rest2 =>
       (let run := rest2.takeWhile Char.isDigit
        if 14 ≤ run.length then some ('9' :: '9' :: run) else digitRun99 rest)
     | _, _ => digitRun99 rest)

/-- find_digits: the first regex match of 99 followed by 14 or more
digits, None when there is none. -/
def find_digits (s : String) : Option String := (digitRun99 s.data).map String.mk

/-- Step (a) of extract_hollis_number: the first recordIdentifier
(flattened over recordInfo groups, matching the break structure of the
nested loops) with truthy text whose lowercased source attribute
mentions "alma" or whose text starts with "99"; "" if none. -/
def hollis_rid_loop : List Node → Except Unit String
  | [] => .ok ""
  | ridnode :: rest => do
    let txt := (get_text ridnode []).getD ""
    let src ← (attrOr ridnode "@source").map pyLower
    if txt != "" && (pyContains src "alma" || pyStartsWith txt "99") then .ok txt
    else hollis_rid_loop rest

/-- Step (b) of extract_hollis_number: the first digit match in a
relatedItem location/url. -/
def hollis_related (mods : Node) : Option String :=
  (as_list (nget mods "relatedItem")).findSome? (fun rel =>
    match get_text rel [pk "location", pk "url"] with
    | some url => if url != "" then find_digits url else none
    | none => none)

/-- Step (c) of extract_hollis_number: the first digit match in an
extension librarycloud/originalDocument. -/
def hollis_extension (mods : Node) : Option String :=
  (as_list (nget mods "extension")).findSome? (fun ext =>
    match get_text ext [pk "librarycloud", pk "originalDocument"] with
    | some od => if od != "" then find_digits od else none
    | none => none)

/-- extract_hollis_number: record identifier with an ALMA-ish source or
a 99 text, else relatedItem URL digits, else extension digits, else "".
The item argument is unused in the source. -/
def extract_hollis_number (mods item : Node) : Except Unit String := do
  let rid ← hollis_rid_loop ((as_list (nget mods "recordInfo")).flatMap
    (fun ri => as_list (nget ri "recordIdentifier")))
  if rid != "" then pure rid
  else
    match hollis_related mods with
    | some d => pure d
    | none =>
      match hollis_extension mods with
      | some d => pure d
      | none => pure ""

/-- item.get("mods") or an empty dict; item.get on a non-dict raises. -/
def itemModsOr (item : Node) : Except Unit Node :=
  match item with
  | .dict l => .ok (match pairsLookup l "mods" with
      | some v => if truthy v then v else .dict []
      | none => .dict [])
  | _ => .error ()

def permalink_rel_loop : List Node → Except Unit (Option String)
  | [] => .ok none
  | rel :: rest => do
    let oth ← (attrOr rel "@otherType").map pyLower
    if pyContains oth "hollis" then
      (match get_text rel [pk "location", pk "url"] with
       | some url => if url != "" then pure (some url) else permalink_rel_loop rest
       | none => permalink_rel_loop rest)
    else permalink_rel_loop rest

def permalink_loc (mods : Node) : Option String :=
  (as_list (nget mods "location")).findSome? (fun loc =>
    (as_list (nget loc "url")).findSome? (fun urlnode => truthyOptFilter (get_text urlnode [])))

/-- extract_permalink: the first relatedItem whose otherType mentions
"hollis" with a truthy location/url, else the first truthy location/url
text, else "". -/
def extract_permalink (item : Node) : Except Unit String := do
  let mods ← itemModsOr item
  let r ← permalink_rel_loop (as_list (nget mods "relatedItem"))
  match r with
  | some url => pure url
  | none => pure ((permalink_loc mods).getD "")

/-- extract_tocs: every truthy tableOfContents text, in order. -/
def extract_tocs (mods : Node) : List String :=
  (as_list (nget mods "tableOfContents")).filterMap (fun toc => truthyOptFilter (scalarText toc))

def notes_loop : List Node → Except Unit (List String)
  | [] => .ok []
  | note :: rest => do
    match scalarText note with
    | some txt =>
      if txt != "" then do
        let t ← (attrOr note "@type").map pyStrip
        let tail ← notes_loop rest
        pure ((if t != "" then t ++ ": " ++ txt else txt) :: tail)
      else notes_loop rest
    | none => notes_loop rest

/-- extract_notes: every truthy note text, prefixed with its stripped
type attribute when truthy. -/
def extract_notes (mods : Node) : Except Unit (List String) :=
  notes_loop (as_list (nget mods "note"))

/-- The first truthy generic identifier text. -/
def first_identifier (mods : Node) : Option String :=
  (as_list (nget mods "identifier")).findSome? (fun idn => truthyOptFilter (scalarText idn))

-- ---------------- row builder ----------------

/-- One output row: the fixed columns plus the unexpanded toc and note
lists (the Python _tocs and _notes entries). -/
structure Row where
  identifier : String
  hollis_number : String
  title : String
  variant_title : String
  creator : String
  name1 : String
  name2 : String
  name3 : String
  names_other : String
  corporate_name : String
  publisher : String
  place : String
  date : String
  language : String
  type_of_resource : String
  physical_description : String
  keyword : String
  repository : String
  call_number : String
  issue_number : String
  permalink : String
  tocs : List String
  notes : List String
deriving DecidableEq

/-- row_from_item, with the extractor calls in Python evaluation order
(so the first raising call is the one that decides the error). -/
def row_from_item (item : Node) : Except Unit Row := do
  let mods ← itemModsOr item
  let names ← extract_personal_names_split mods
  let rc := extract_repository_and_callnum mods
  let hollis ← extract_hollis_number mods item
  let title ← extract_title mods
  let variant ← extract_variant_titles mods
  let creator ← extract_creators mods
  let corp ← extract_corporate_names mods
  let issue ← extract_issue_number mods
  let perma ← extract_permalink item
  let ident := (first_identifier mods).getD hollis
  let notes ← extract_notes mods
  pure {
    identifier := ident
    hollis_number := hollis
    title := title
    variant_title := variant
    creator := creator
    name1 := names.1
    name2 := names.2.1
    name3 := names.2.2.1
    names_other := names.2.2.2
    corporate_name := corp
    publisher := extract_publisher mods
    place := extract_place mods
    date := extract_date mods
    language := extract_language mods
    type_of_resource := extract_type_of_resource mods
    physical_description := extract_physical_description mods
    keyword := extract_keywords mods
    repository := rc.1
    call_number := rc.2
    issue_number := issue
    permalink := perma
    tocs := extract_tocs mods
    notes := notes }

-- ---------------- batch loop, dedup, dynamic columns ----------------

/-- The deduplication key: the hollis_number string when truthy, else
the (identifier, permalink) tuple. A Python string never equals a
Python tuple, which the two constructors model. -/
inductive DedupKey : Type where
  | hollis (s : String) : DedupKey
  | pair (identifier permalink : String) : DedupKey
deriving DecidableEq

def dedup_key (r : Row) : DedupKey :=
  if r.hollis_number != "" then .hollis r.hollis_number else .pair r.identifier r.permalink

/-- The accumulator of the main loop: accepted rows, seen keys, running
toc and note maxima, written count. -/
structure HarvestState where
  rows : List Row
  seen : List DedupKey
  maxTocs : Nat
  maxNotes : Nat
  written : Nat
deriving DecidableEq

def initState : HarvestState :=
  { rows := [], seen := [], maxTocs := 0, maxNotes := 0, written := 0 }

/-- The body of the main loop on one accepted row. -/
def acceptRow (st : HarvestState) (row : Row) : HarvestState :=
  { rows := st.rows ++ [row]
    seen := dedup_key row :: st.seen
    maxTocs := max st.maxTocs row.tocs.length
    maxNotes := max st.maxNotes row.notes.length
    written := st.written + 1 }

/-- The per-item for loop of main: build the row, silently skip it when
its key was seen, else accept it and stop once written reaches the
record cap. -/
def process_items (maxRecords : Int) : HarvestState → List Node → Except Unit HarvestState
  | st, [] => .ok st
  | st, it :: rest => do
    let row ← row_from_item it
    if st.seen.contains (dedup_key row) then process_items maxRecords st rest
    else
      (let st2 := acceptRow st row
       if maxRecords ≤ (st2.written : Int) then .ok st2
       else process_items maxRecords st2 rest)

/-- BASE_COLUMNS of the source. -/
def BASE_COLUMNS : List String :=
  ["identifier", "hollis_number", "title", "variant_title", "creator",
   "name1", "name2", "name3", "names_other", "corporate_name",
   "publisher", "place", "date", "language", "type_of_resource",
   "physical_description", "keyword", "repository", "call_number",
   "issue_number", "permalink"]

/-- r.get(column, "") on the fixed part of a row dict. -/
def rowGet (r : Row) (c : String) : String :=
  if c = "identifier" then r.identifier
  else if c = "hollis_number" then r.hollis_number
  else if c = "title" then r.title
  else if c = "variant_title" then r.variant_title
  else if c = "creator" then r.creator
  else if c = "name1" then r.name1
  else if c = "name2" then r.name2
  else if c = "name3" then r.name3
  else if c = "names_other" then r.names_other
  else if c = "corporate_name" then r.corporate_name
  else if c = "publisher" then r.publisher
  else if c = "place" then r.place
  else if c = "date" then r.date
  else if c = "language" then r.language
  else if c = "type_of_resource" then r.type_of_resource
  else if c = "physical_description" then r.physical_description
  else if c = "keyword" then r.keyword
  else if c = "repository" then r.repository
  else if c = "call_number" then r.call_number
  else if c = "issue_number" then r.issue_number
  else if c = "permalink" then r.permalink
  else ""

/-- The dynamic header: BASE_COLUMNS, then toc1..tocN, then note1..noteM
with N and M the running maxima. -/
def fieldnames (maxTocs maxNotes : Nat) : List String :=
  BASE_COLUMNS ++ (List.range maxTocs).map (fun i => "toc" ++ toString (i + 1))
    ++ (List.range maxNotes).map (fun i => "note" ++ toString (i + 1))

/-- One written CSV row in fieldnames order: the fixed columns, then the
toc and note lists padded with "" up to the maxima. -/
def out_row (r : Row) (maxTocs maxNotes : Nat) : List String :=
  BASE_COLUMNS.map (rowGet r)
    ++ (List.range maxTocs).map (fun i => r.tocs.getD i "")
    ++ (List.range maxNotes).map (fun i => r.notes.getD i "")

-- ---------------- predicates for the idempotence claim ----------------

/-- Number of colons in a key. -/
def colonCount (k : String) : Nat := (k.data.filter (fun c => c == ':')).length

/-- A key with no colon. -/
def keyNoColon (k : String) : Bool := (afterFirstColon k.data).isNone

mutual
/-- Every mapping key of the tree has at most one colon. -/
def oneColon : Node → Bool
  | .null => true
  | .str _ => true
  | .list l => oneColonList l
  | .dict d => oneColonPairs d
termination_by structural n => n

def oneColonList : List Node → Bool
  | [] => true
  | x :: xs => oneColon x && oneColonList xs
termination_by structural l => l

def oneColonPairs : List (String × Node) → Bool
  | [] => true
  | (k, v) :: rest => Nat.ble (colonCount k) 1 && oneColon v && oneColonPairs rest
termination_by structural l => l
end

-- ---------------- predicates for the safety claim ----------------

def isDict : Node → Bool
  | .dict _ => true
  | _ => false

/-- An attribute value the source can lower/strip without raising:
a string, or any falsy value (the "or" guard replaces those with ""). -/
def attrValOk : Node → Bool
  | .str _ => true
  | v => !truthy v

/-- A namePart entry whose text resolution cannot raise inside
_display_name_with_dates: any non-dict, or a dict with resolvable text. -/
def namePartTextOk : Node → Bool
  | .dict l => (textOf (.dict l)).isSome
  | _ => true

mutual
/-- Well-formedness sufficient for raise-freedom: every value under an
"@"-key is a string or falsy, and every value under a key with local
name namePart is a list of raise-free namePart entries. Trees produced
by the XML parser satisfy this (attributes are always strings). -/
def wf : Node → Bool
  | .null => true
  | .str _ => true
  | .list l => wfList l
  | .dict d => wfPairs d
termination_by structural n => n

def wfList : List Node → Bool
  | [] => true
  | x :: xs => wf x && wfList xs
termination_by structural l => l

def wfPairs : List (String × Node) → Bool
  | [] => true
  | (k, v) :: rest =>
    (!pyStartsWith k "@" || attrValOk v) &&
    (!(localName k == "namePart") || (as_list v).all namePartTextOk) &&
    wf v && wfPairs rest
termination_by structural l => l
end

-- ---------------- definitions following the spec wording ----------------

/-- Modelled from the spec wording: the attribute value of a mapping as
a plain total function (the string at the key, "" otherwise). Agrees
with attrOr wherever attrOr does not raise. -/
def attrSpec (n : Node) (key : String) : String :=
  match n with
  | .dict l =>
    (match pairsLookup l key with
     | some (.str s) => s
     | _ => "")
  | _ => ""

/-- Modelled from the spec wording of the display form: the stripped
text of one namePart entry, as a total function. -/
def namePartTextSpec (np : Node) : String :=
  match np with
  | .dict _ => pyStrip ((get_text np []).getD "")
  | .null => ""
  | x => pyStrip (pyStr x)

/-- Modelled from the spec wording: the nonempty non-date name part
texts of a name, in document order. -/
def displayOthersSpec (n : Node) : List String :=
  (((as_list (nget n "namePart")).map
    (fun np => (namePartTextSpec np, pyLower (attrSpec np "@type")))).filter
    (fun p => p.1 != "" && p.2 != "date")).map Prod.fst

/-- Modelled from the spec wording: the nonempty date name part texts. -/
def displayDatesSpec (n : Node) : List String :=
  (((as_list (nget n "namePart")).map
    (fun np => (namePartTextSpec np, pyLower (attrSpec np "@type")))).filter
    (fun p => p.1 != "" && p.2 == "date")).map Prod.fst

/-- Modelled from the spec wording: the non-date parts, falling back to
the displayForm field when none yield text. -/
def displayBaseSpec (n : Node) : List String :=
  if (displayOthersSpec n).isEmpty then
    (if pyStrip ((get_text n [pk "displayForm"]).getD "") != "" then
      [pyStrip ((get_text n [pk "displayForm"]).getD "")]
    else [])
  else displayOthersSpec n

/-- Modelled from the spec wording: concatenate non-date name parts in
document order (falling back to displayForm when none yield text), then
append date parts parenthetically. -/
def displayNameSpec (n : Node) : String :=
  if !(displayDatesSpec n).isEmpty then
    pyStrip (String.intercalate " " (displayBaseSpec n)) ++ " (" ++
      String.intercalate "; " (displayDatesSpec n) ++ ")"
  else pyStrip (String.intercalate " " (displayBaseSpec n))

/-- Modelled from the spec wording: some role term of the name matches
the fixed sets (a coded term in the code set, or any term whose text is
in the word set). -/
def roleMatchSpec (n : Node) : Bool :=
  (as_list (nget n "role")).any (fun role =>
    (as_list (nget role "roleTerm")).any (fun rt =>
      let t := pyLower (pyStrip ((get_text rt []).getD ""))
      let isCode := pyLower (attrSpec rt "@type") == "code"
      (isCode && want_codes.contains t) || want_texts.contains t))

/-- Modelled from the spec wording: a name is included in Creator when
its type is absent or personal, and some role term matches, or, when no
role term matches, its usage attribute equals primary. -/
def creator_includes (n : Node) : Bool :=
  (pyLower (attrSpec n "@type") == "" || pyLower (attrSpec n "@type") == "personal") &&
  (roleMatchSpec n || (!roleMatchSpec n && (pyLower (attrSpec n "@usage") == "primary")))

/-- Modelled from the spec wording: the Creator column is the "; "-join
of the deduplicated nonempty display forms of the included names. -/
def creatorsSpec (mods : Node) : String :=
  String.intercalate "; " (pyDedup ((as_list (nget mods "name")).filterMap (fun n =>
    if creator_includes n then
      (let d := displayNameSpec n
       if d != "" then some d else none)
    else none)))

/-- Modelled from the spec wording: the Title field is the first
title-group entry whose type is absent or translated and whose title is
truthy, composed as nonSort, space, title, optionally ": " subtitle. -/
def titleSpec (mods : Node) : String :=
  ((as_list (nget mods "titleInfo")).filterMap (fun ti =>
    if (get_text ti [pk "title"]).getD "" != "" &&
        (pyLower (attrSpec ti "@type") == "" || pyLower (attrSpec ti "@type") == "translated") then
      some ((if (get_text ti [pk "nonSort"]).getD "" != "" then
          (get_text ti [pk "nonSort"]).getD "" ++ " " ++ (get_text ti [pk "title"]).getD ""
        else (get_text ti [pk "title"]).getD "") ++
        (if (get_text ti [pk "subTitle"]).getD "" != "" then
          ": " ++ (get_text ti [pk "subTitle"]).getD "" else ""))
    else none)).headD ""

/-- Modelled from the spec wording of step (a): the first record
identifier (record-info order) with truthy text whose source mentions
alma or whose text starts with 99. -/
def hollisStepASpec (mods : Node) : Option String :=
  ((as_list (nget mods "recordInfo")).flatMap
    (fun ri => as_list (nget ri "recordIdentifier"))).findSome? (fun ridnode =>
      if (get_text ridnode []).getD "" != "" &&
          (pyContains (pyLower (attrSpec ridnode "@source")) "alma" ||
            pyStartsWith ((get_text ridnode []).getD "") "99") then
        some ((get_text ridnode []).getD "")
      else none)

/-- Modelled from the spec wording: the three-step fallback chain, first
success wins, "" when all fail. -/
def hollisNumberSpec (mods : Node) : String :=
  match hollisStepASpec mods with
  | some r => r
  | none =>
    match hollis_related mods with
    | some d => d
    | none =>
      match hollis_extension mods with
      | some d => d
      | none => ""

-- ---------------- concrete example trees ----------------

/-- C1 example: no recordInfo, a relatedItem catalog URL. -/
def c1mods : Node :=
  .dict [("relatedItem", .dict [("location", .dict
    [("url", .str "https://id.lib.harvard.edu/catalog/990012345670203941")])])]

/-- C2 example: a uniform title group followed by an untyped one. -/
def c2mods : Node :=
  .dict [("titleInfo", .list
    [.dict [("@type", .str "uniform"), ("title", .str "X")],
     .dict [("nonSort", .str "The"), ("title", .str "Store"), ("subTitle", .str "A Novel")]])]

/-- C3 example: a name with role code aut, name parts Doe and Jane, and
a date name part. -/
def c3aut : Node :=
  .dict [("role", .dict [("roleTerm", .dict [("@type", .str "code"), ("#text", .str "aut")])]),
         ("namePart", .list [.str "Doe", .str "Jane",
           .dict [("@type", .str "date"), ("#text", .str "1950-")]])]

/-- C3 example: a name with role code edt only. -/
def c3edt : Node :=
  .dict [("role", .dict [("roleTerm", .dict [("@type", .str "code"), ("#text", .str "edt")])]),
         ("namePart", .str "Smith, Bob")]

/-- C4 example: two distinct records with the same ALMA identifier. -/
def c4itemA : Node :=
  .dict [("mods", .dict
    [("recordInfo", .dict [("recordIdentifier", .dict
       [("@source", .str "MH:ALMA"), ("#text", .str "990012345670203941")])]),
     ("titleInfo", .dict [("title", .str "Record A")])])]

def c4itemB : Node :=
  .dict [("mods", .dict
    [("recordInfo", .dict [("recordIdentifier", .dict
       [("@source", .str "MH:ALMA"), ("#text", .str "990012345670203941")])]),
     ("titleInfo", .dict [("title", .str "Record B")])])]

/-- The row built from c4itemA (checked by decide in the C4 witness). -/
def c4rowA : Row := {
  identifier := "990012345670203941"
  hollis_number := "990012345670203941"
  title := "Record A"
  variant_title := ""
  creator := ""
  name1 := ""
  name2 := ""
  name3 := ""
  names_other := ""
  corporate_name := ""
  publisher := ""
  place := ""
  date := ""
  language := ""
  type_of_resource := ""
  physical_description := ""
  keyword := ""
  repository := ""
  call_number := ""
  issue_number := ""
  permalink := ""
  tocs := []
  notes := [] }

/-- C5 example: one record with three notes. -/
def c5item : Node :=
  .dict [("mods", .dict [("note", .list [.str "n1", .str "n2", .str "n3"])])]

/-- C9 counterexample: a titleInfo whose type attribute is a truthy
non-string, which makes (ti.get("@type") or "").lower() raise. -/
def c9bad : Node :=
  .dict [("mods", .dict [("titleInfo", .dict
    [("@type", .list [.str "x"]), ("title", .str "T")])])]

/-- C9 witness: a well-formed item. -/
def c9good : Node :=
  .dict [("mods", .dict [("titleInfo", .dict [("title", .str "T")])])]

/-- C10 example: an untyped name with a truthy nonempty first namePart. -/
def c10name : Node := .dict [("namePart", .str "Acme Corp")]

def c10item : Node := .dict [("mods", .dict [("name", c10name)])]

-- ================= theorems =================

-- ---------------- Except inversion helpers ----------------

theorem except_bind_ok {ε α β : Type} (x : Except ε α) (f : α → Except ε β) (b : β)
    (h : (x >>= f) = Except.ok b) : ∃ a, x = Except.ok a ∧ f a = Except.ok b := by
  cases x with
  | error e => exact absurd h (by intro hh; exact Except.noConfusion hh)
  | ok a => exact ⟨a, rfl, h⟩

theorem except_map_ok {ε α β : Type} (x : Except ε α) (f : α → β) (b : β)
    (h : Except.map f x = Except.ok b) : ∃ a, x = Except.ok a ∧ f a = b := by
  cases x with
  | error e => exact absurd h (by intro hh; exact Except.noConfusion hh)
  | ok a =>
    refine ⟨a, rfl, ?_⟩
    have : Except.ok (ε := ε) (f a) = Except.ok b := h
    exact Except.ok.inj this

theorem except_pure_ok {ε α : Type} (a b : α)
    (h : (pure a : Except ε α) = Except.ok b) : a = b := Except.ok.inj h

-- ---------------- C6: normalizer idempotence ----------------

theorem afterFirstColon_eq_none_iff (l : List Char) : afterFirstColon l = none ↔ ':' ∉ l := by
  induction l with
  | nil => simp [afterFirstColon]
  | cons c t ih =>
    by_cases hc : c = ':'
    · simp [afterFirstColon, hc]
    · have he : afterFirstColon (c :: t) = afterFirstColon t := by simp [afterFirstColon, hc]
      rw [he, ih]
      constructor
      · intro h hm
        rcases List.mem_cons.mp hm with h1 | h1
        · exact hc h1.symm
        · exact h h1
      · intro h hm
        exact h (List.mem_cons_of_mem c hm)

theorem afterFirstColon_some_noColon (l : List Char)
    (hc : (l.filter (fun c => c == ':')).length ≤ 1) :
    ∀ r, afterFirstColon l = some r → ':' ∉ r := by
  induction l with
  | nil => intro r h; simp [afterFirstColon] at h
  | cons c t ih =>
    intro r h
    by_cases hcc : c = ':'
    · subst hcc
      have ht : t = r := by simpa [afterFirstColon] using h
      subst ht
      intro hmem
      have hfil : (t.filter (fun c => c == ':')).length + 1 ≤ 1 := by
        simpa [List.filter_cons] using hc
      have h0 : (t.filter (fun c => c == ':')).length = 0 := by omega
      have hmem2 : ':' ∈ t.filter (fun c => c == ':') := List.mem_filter.mpr ⟨hmem, by simp⟩
      rw [List.length_eq_zero.mp h0] at hmem2
      simp at hmem2
    · have hc2 : (t.filter (fun c => c == ':')).length ≤ 1 := by
        simpa [List.filter_cons, hcc] using hc
      have h2 : afterFirstColon t = some r := by simpa [afterFirstColon, hcc] using h
      exact ih hc2 r h2

theorem stripKey_noColon (k : String) (h : colonCount k ≤ 1) : keyNoColon (stripKey k) = true := by
  unfold stripKey keyNoColon
  cases heq : afterFirstColon k.data with
  | none => simp [heq]
  | some r =>
    have hr : ':' ∉ r := afterFirstColon_some_noColon k.data h r heq
    have : afterFirstColon r = none := (afterFirstColon_eq_none_iff r).mpr hr
    simp [this]

theorem stripKey_id (k : String) (h : keyNoColon k = true) : stripKey k = k := by
  unfold keyNoColon at h
  unfold stripKey
  cases heq : afterFirstColon k.data with
  | none => rfl
  | some r => rw [heq] at h; simp at h

theorem mem_dictInsert (k : String) (v : Node) :
    ∀ acc : List (String × Node), ∀ p ∈ dictInsert acc k v, p = (k, v) ∨ p ∈ acc := by
  intro acc
  induction acc with
  | nil => intro p hp; simpa [dictInsert] using hp
  | cons hd tl ih =>
    rcases hd with ⟨k1, v1⟩
    intro p hp
    by_cases hk : k1 = k
    · rw [show dictInsert ((k1, v1) :: tl) k v = (k, v) :: tl by simp [dictInsert, hk]] at hp
      rcases List.mem_cons.mp hp with h | h
      · exact Or.inl h
      · exact Or.inr (List.mem_cons_of_mem _ h)
    · rw [show dictInsert ((k1, v1) :: tl) k v = (k1, v1) :: dictInsert tl k v by
        simp [dictInsert, hk]] at hp
      rcases List.mem_cons.mp hp with h | h
      · exact Or.inr (by simp [h])
      · rcases ih p h with h2 | h2
        · exact Or.inl h2
        · exact Or.inr (List.mem_cons_of_mem _ h2)

theorem keys_dictInsert_mem (k : String) (v : Node) :
    ∀ acc : List (String × Node), k ∈ acc.map Prod.fst →
      (dictInsert acc k v).map Prod.fst = acc.map Prod.fst := by
  intro acc
  induction acc with
  | nil => intro h; simp at h
  | cons hd tl ih =>
    rcases hd with ⟨k1, v1⟩
    intro h
    by_cases hk : k1 = k
    · simp [dictInsert, hk]
    · have h2 : k ∈ tl.map Prod.fst := by
        rcases List.mem_map.mp h with ⟨p, hp, hpk⟩
        rcases List.mem_cons.mp hp with h3 | h3
        · exact absurd (by rw [h3] at hpk; exact hpk) hk
        · exact List.mem_map.mpr ⟨p, h3, hpk⟩
      simp [dictInsert, hk, ih h2]

theorem keys_dictInsert_not_mem (k : String) (v : Node) :
    ∀ acc : List (String × Node), k ∉ acc.map Prod.fst →
      dictInsert acc k v = acc ++ [(k, v)] := by
  intro acc
  induction acc with
  | nil => intro _; simp [dictInsert]
  | cons hd tl ih =>
    rcases hd with ⟨k1, v1⟩
    intro h
    have h1 : ¬k1 = k := by
      intro hh; exact h (by simp [hh])
    have h2 : k ∉ tl.map Prod.fst := by
      intro hh; exact h (by simp [hh])
    simp [dictInsert, h1, ih h2]

theorem nodup_dictInsert (k : String) (v : Node) (acc : List (String × Node))
    (h : (acc.map Prod.fst).Nodup) :
    ((dictInsert acc k v).map Prod.fst).Nodup := by
  by_cases hk : k ∈ acc.map Prod.fst
  · rw [keys_dictInsert_mem k v acc hk]; exact h
  · rw [keys_dictInsert_not_mem k v acc hk]
    rw [List.map_append]
    refine List.Nodup.append h (by simp) ?_
    intro a ha hb
    simp at hb
    exact hk (hb ▸ ha)

theorem oneColonPairs_mem (d : List (String × Node)) (h : oneColonPairs d = true) :
    ∀ p ∈ d, colonCount p.1 ≤ 1 ∧ oneColon p.2 = true := by
  induction d with
  | nil => intro p hp; simp at hp
  | cons hd tl ih =>
    rcases hd with ⟨k, v⟩
    simp only [oneColonPairs, Bool.and_eq_true] at h
    intro p hp
    rcases List.mem_cons.mp hp with h2 | h2
    · subst h2
      exact ⟨Nat.le_of_ble_eq_true h.1.1, h.1.2⟩
    · exact ih h.2 p h2

theorem oneColonList_mem (l : List Node) (h : oneColonList l = true) :
    ∀ x ∈ l, oneColon x = true := by
  induction l with
  | nil => intro x hx; simp at hx
  | cons hd tl ih =>
    simp only [oneColonList, Bool.and_eq_true] at h
    intro x hx
    rcases List.mem_cons.mp hx with h2 | h2
    · exact h2 ▸ h.1
    · exact ih h.2 x h2

theorem strip_go_invariant (d : List (String × Node)) :
    ∀ acc : List (String × Node),
    (∀ p ∈ acc, keyNoColon p.1 = true ∧ strip_ns p.2 = p.2) →
    (acc.map Prod.fst).Nodup →
    (∀ p ∈ d, colonCount p.1 ≤ 1 ∧ strip_ns (strip_ns p.2) = strip_ns p.2) →
    (∀ p ∈ strip_ns_go acc d, keyNoColon p.1 = true ∧ strip_ns p.2 = p.2) ∧
      ((strip_ns_go acc d).map Prod.fst).Nodup := by
  induction d with
  | nil => intro acc h1 h2 _; exact ⟨by simpa [strip_ns_go] using h1, by simpa [strip_ns_go] using h2⟩
  | cons hd tl ih =>
    rcases hd with ⟨k, v⟩
    intro acc h1 h2 h3
    have hk : colonCount k ≤ 1 := (h3 (k, v) (by simp)).1
    have hv : strip_ns (strip_ns v) = strip_ns v := (h3 (k, v) (by simp)).2
    have hacc : ∀ p ∈ dictInsert acc (stripKey k) (strip_ns v),
        keyNoColon p.1 = true ∧ strip_ns p.2 = p.2 := by
      intro p hp
      rcases mem_dictInsert (stripKey k) (strip_ns v) acc p hp with h4 | h4
      · subst h4; exact ⟨stripKey_noColon k hk, hv⟩
      · exact h1 p h4
    have hnodup : ((dictInsert acc (stripKey k) (strip_ns v)).map Prod.fst).Nodup :=
      nodup_dictInsert (stripKey k) (strip_ns v) acc h2
    have := ih (dictInsert acc (stripKey k) (strip_ns v)) hacc hnodup
      (fun p hp => h3 p (by simp [hp]))
    simpa [strip_ns_go] using this

theorem strip_go_id (l : List (String × Node)) :
    ∀ acc : List (String × Node),
    (∀ p ∈ l, keyNoColon p.1 = true ∧ strip_ns p.2 = p.2) →
    ((acc ++ l).map Prod.fst).Nodup →
    strip_ns_go acc l = acc ++ l := by
  induction l with
  | nil => intro acc _ _; simp [strip_ns_go]
  | cons hd tl ih =>
    rcases hd with ⟨k, v⟩
    intro acc h1 h2
    have hk : keyNoColon k = true := (h1 (k, v) (by simp)).1
    have hv : strip_ns v = v := (h1 (k, v) (by simp)).2
    have hknot : k ∉ acc.map Prod.fst := by
      intro hmem
      rw [List.map_append, List.nodup_append] at h2
      exact h2.2.2 hmem (by simp)
    have hins : dictInsert acc (stripKey k) (strip_ns v) = acc ++ [(k, v)] := by
      rw [stripKey_id k hk, hv]
      exact keys_dictInsert_not_mem k v acc hknot
    have hnodup2 : (((acc ++ [(k, v)]) ++ tl).map Prod.fst).Nodup := by
      simpa [List.append_assoc] using h2
    calc strip_ns_go acc ((k, v) :: tl)
        = strip_ns_go (acc ++ [(k, v)]) tl := by rw [strip_ns_go, hins]
      _ = (acc ++ [(k, v)]) ++ tl := ih (acc ++ [(k, v)]) (fun p hp => h1 p (by simp [hp])) hnodup2
      _ = acc ++ ((k, v) :: tl) := by simp

mutual
theorem strip_ns_idem : ∀ t : Node, oneColon t = true → strip_ns (strip_ns t) = strip_ns t
  | .null => fun _ => rfl
  | .str s => fun _ => rfl
  | .list l => fun h => by
      have h2 := strip_ns_idem_list l (by simpa [oneColon] using h)
      simp [strip_ns, h2]
  | .dict d => fun h => by
      have h0 : oneColonPairs d = true := by simpa [oneColon] using h
      have hd : ∀ p ∈ d, colonCount p.1 ≤ 1 ∧ strip_ns (strip_ns p.2) = strip_ns p.2 :=
        fun p hp => ⟨(oneColonPairs_mem d h0 p hp).1, strip_ns_idem_pairs d h0 p hp⟩
      have hinv := strip_go_invariant d [] (by simp) (by simp) hd
      have hid := strip_go_id (strip_ns_go [] d) [] hinv.1 (by simpa using hinv.2)
      simp only [strip_ns]
      rw [hid]
      simp
termination_by structural t => t

theorem strip_ns_idem_list : ∀ l : List Node,
    oneColonList l = true → strip_ns_list (strip_ns_list l) = strip_ns_list l
  | [] => fun _ => rfl
  | x :: xs => fun h => by
      have h2 : oneColon x = true ∧ oneColonList xs = true := by
        simpa [oneColonList] using h
      simp [strip_ns_list, strip_ns_idem x h2.1, strip_ns_idem_list xs h2.2]
termination_by structural l => l

theorem strip_ns_idem_pairs : ∀ d : List (String × Node),
    oneColonPairs d = true → ∀ p ∈ d, strip_ns (strip_ns p.2) = strip_ns p.2
  | [] => fun _ p hp => by simp at hp
  | (k, v) :: rest => fun h p hp => by
      have h2 : (Nat.ble (colonCount k) 1 = true ∧ oneColon v = true) ∧ oneColonPairs rest = true := by
        simpa [oneColonPairs, Bool.and_eq_true] using h
      rcases List.mem_cons.mp hp with h3 | h3
      · subst h3; exact strip_ns_idem v h2.1.2
      · exact strip_ns_idem_pairs rest h2.2 p h3
termination_by structural d => d
end

/-- C6 counterexample: normalization is not idempotent; a key with two
colons loses one more namespace segment on the second pass. -/
theorem strip_ns_twice_ne :
    strip_ns (strip_ns (Node.dict [("a:b:c", Node.null)])) ≠
      strip_ns (Node.dict [("a:b:c", Node.null)]) := by decide

/-- C6 (amended): tree normalization is idempotent on every nested
structure of mappings, sequences and scalars whose mapping keys each
contain at most one colon (one namespace separator); normalizing such a
tree twice yields the same tree as normalizing it once. -/
theorem strip_ns_idempotent (t : Node) (h : oneColon t = true) :
    strip_ns (strip_ns t) = strip_ns t := strip_ns_idem t h

/-- C6 witness. -/
theorem strip_ns_idempotent_witness :
    oneColon (Node.dict [("mods:titleInfo", Node.dict [("mods:title", Node.str "T")])]) = true ∧
    strip_ns (strip_ns (Node.dict [("mods:titleInfo", Node.dict [("mods:title", Node.str "T")])])) =
      strip_ns (Node.dict [("mods:titleInfo", Node.dict [("mods:title", Node.str "T")])]) :=
  ⟨by decide, strip_ns_idempotent _ (by decide)⟩

-- ---------------- C7: namespace-insensitive get ----------------

theorem findLocal_eq_find (l : List (String × Node)) (key : String) :
    findLocal l key = (l.find? (fun p => localName p.1 == key)).map Prod.snd := by
  induction l with
  | nil => rfl
  | cons hd tl ih =>
    by_cases h : localName hd.1 = key
    · simp [findLocal, List.findSome?_cons, List.find?_cons, h]
    · simp only [findLocal, List.findSome?_cons, List.find?_cons, if_neg h] at ih ⊢
      rw [show (localName hd.1 == key) = false by simpa using h]
      exact ih

/-- C7: namespace-insensitive get returns the value at the exact key
when present, otherwise the value at the first mapping key (in mapping
order) whose local name (the text after its last colon) equals the
queried key, and null when no key matches; consequently a mapping
holding both a namespace-prefixed and an unprefixed variant of the same
local name yields a (non-null) value for both the prefixed and the
unprefixed query form. -/
theorem nget_characterization :
    (∀ (l : List (String × Node)) (key : String) (v : Node),
        pairsLookup l key = some v → nget (Node.dict l) key = v)
    ∧ (∀ (l : List (String × Node)) (key : String),
        pairsLookup l key = none →
          nget (Node.dict l) key =
            ((l.find? (fun p => localName p.1 == key)).map Prod.snd).getD Node.null)
    ∧ (∀ (l : List (String × Node)) (ns key : String) (v1 v2 : Node),
        pairsLookup l (ns ++ ":" ++ key) = some v1 → pairsLookup l key = some v2 →
        v1 ≠ Node.null → v2 ≠ Node.null →
        nget (Node.dict l) (ns ++ ":" ++ key) ≠ Node.null ∧
          nget (Node.dict l) key ≠ Node.null) := by
  refine ⟨?_, ?_, ?_⟩
  · intro l key v h
    simp [nget, h]
  · intro l key h
    simp [nget, h, findLocal_eq_find]
  · intro l ns key v1 v2 h1 h2 hv1 hv2
    constructor
    · rw [show nget (Node.dict l) (ns ++ ":" ++ key) = v1 by simp [nget, h1]]
      exact hv1
    · rw [show nget (Node.dict l) key = v2 by simp [nget, h2]]
      exact hv2

/-- C7 witness. -/
theorem nget_characterization_witness :
    nget (Node.dict [("mods:title", Node.str "X"), ("title", Node.str "Y")])
        ("mods" ++ ":" ++ "title") ≠ Node.null ∧
    nget (Node.dict [("mods:title", Node.str "X"), ("title", Node.str "Y")]) "title" ≠
      Node.null :=
  nget_characterization.2.2 [("mods:title", Node.str "X"), ("title", Node.str "Y")]
    "mods" "title" (Node.str "X") (Node.str "Y") (by decide) (by decide) (by decide) (by decide)

-- ---------------- C8: title filter overlap ----------------

/-- C8 counterexample: the type value "translated" is accepted by both
the Title filter and the Variant-Title filter, and a single translated
title group contributes the same text to both fields. -/
theorem title_variant_overlap :
    titleTypeOk "translated" = true ∧ variantTypeOk "translated" = true ∧
    extract_title (Node.dict [("titleInfo",
      Node.dict [("@type", Node.str "translated"), ("title", Node.str "X")])]) =
        Except.ok "X" ∧
    extract_variant_titles (Node.dict [("titleInfo",
      Node.dict [("@type", Node.str "translated"), ("title", Node.str "X")])]) =
        Except.ok "X" := by
  exact ⟨by decide, by decide, by decide, by decide⟩

/-- C8 (amended): the Title and Variant-Title type filters overlap
exactly on the value "translated": a lowercased type value is accepted
by both extractors if and only if it is "translated"; every other value
is accepted by at most one of the two filters. -/
theorem title_variant_filters_overlap_iff (s : String) :
    (titleTypeOk s = true ∧ variantTypeOk s = true) ↔ s = "translated" := by
  constructor
  · rintro ⟨h1, h2⟩
    unfold titleTypeOk at h1
    unfold variantTypeOk at h2
    simp only [Bool.or_eq_true, beq_iff_eq] at h1 h2
    rcases h1 with h | h
    · rw [h] at h2
      exact absurd h2 (by decide)
    · exact h
  · intro h
    subst h
    exact ⟨by decide, by decide⟩

/-- C8 witness. -/
theorem title_variant_filters_overlap_iff_witness :
    titleTypeOk "translated" = true ∧ variantTypeOk "translated" = true :=
  (title_variant_filters_overlap_iff "translated").mpr rfl

-- ---------------- C1: HOLLIS-number fallback chain ----------------

theorem attrOr_ok_spec (n : Node) (key s : String) (h : attrOr n key = Except.ok s) :
    s = attrSpec n key := by
  cases n with
  | dict l =>
    simp only [attrOr, attrSpec] at h ⊢
    cases hl : pairsLookup l key with
    | none =>
      simp [hl] at h ⊢
      exact h.symm
    | some v =>
      cases v with
      | null =>
        simp [hl, truthy] at h ⊢
        exact h.symm
      | str t =>
        by_cases ht : t = ""
        · subst ht
          simp [hl, truthy] at h ⊢
          exact h.symm
        · simp [hl, truthy, ht] at h ⊢
          exact h.symm
      | list xs =>
        cases xs with
        | nil => simp [hl, truthy] at h ⊢; exact h.symm
        | cons a b => simp [hl, truthy] at h
      | dict d =>
        cases d with
        | nil => simp [hl, truthy] at h ⊢; exact h.symm
        | cons a b => simp [hl, truthy] at h
  | null =>
    simp [attrOr, attrSpec] at h ⊢
    exact h.symm
  | str t =>
    simp [attrOr, attrSpec] at h ⊢
    exact h.symm
  | list xs =>
    simp [attrOr, attrSpec] at h ⊢
    exact h.symm

theorem hollis_rid_loop_spec :
    ∀ (l : List Node) (r : String), hollis_rid_loop l = Except.ok r →
      (r ≠ "" ∧ (l.findSome? (fun ridnode =>
          if (get_text ridnode []).getD "" != "" &&
              (pyContains (pyLower (attrSpec ridnode "@source")) "alma" ||
                pyStartsWith ((get_text ridnode []).getD "") "99") then
            some ((get_text ridnode []).getD "")
          else none)) = some r)
      ∨ (r = "" ∧ (l.findSome? (fun ridnode =>
          if (get_text ridnode []).getD "" != "" &&
              (pyContains (pyLower (attrSpec ridnode "@source")) "alma" ||
                pyStartsWith ((get_text ridnode []).getD "") "99") then
            some ((get_text ridnode []).getD "")
          else none)) = none) := by
  intro l
  induction l with
  | nil =>
    intro r h
    simp [hollis_rid_loop] at h
    exact Or.inr ⟨h.symm, by simp⟩
  | cons ridnode rest ih =>
    intro r h
    simp only [hollis_rid_loop] at h
    obtain ⟨src0, hsrc0, h2⟩ := except_bind_ok _ _ _ h
    obtain ⟨s, hs, hmap⟩ := except_map_ok _ _ _ hsrc0
    obtain rfl : s = attrSpec ridnode "@source" := attrOr_ok_spec ridnode "@source" s hs
    subst hmap
    rw [List.findSome?_cons]
    by_cases hcond : ((get_text ridnode []).getD "" != "" &&
        (pyContains (pyLower (attrSpec ridnode "@source")) "alma" ||
          pyStartsWith ((get_text ridnode []).getD "") "99")) = true
    · rw [if_pos hcond] at h2
      have hr : (get_text ridnode []).getD "" = r := Except.ok.inj h2
      subst hr
      rw [if_pos hcond]
      refine Or.inl ⟨?_, rfl⟩
      intro hempty
      rw [hempty] at hcond
      simp at hcond
    · rw [if_neg hcond] at h2
      rw [if_neg hcond]
      exact ih r h2

/-- C1: for every normalized record tree, whenever the HOLLIS-number
extractor returns a value it is the value of the three-step fallback
chain written from the spec (first record-info record-identifier whose
source mentions alma or whose text starts with 99; failing that the
first qualifying digit run in a relatedItem location URL; failing that
the one in an extension originalDocument; "" when all fail, first
success wins); and on the concrete record with no record-info and a
relatedItem catalog URL the extractor returns the 18-digit identifier
from step (b). -/
theorem hollis_fallback_chain :
    (∀ (mods item : Node) (v : String),
        extract_hollis_number mods item = Except.ok v → v = hollisNumberSpec mods)
    ∧ extract_hollis_number c1mods Node.null = Except.ok "990012345670203941"
    ∧ hollisStepASpec c1mods = none := by
  refine ⟨?_, by decide, by decide⟩
  intro mods item v h
  simp only [extract_hollis_number] at h
  obtain ⟨r, hr, h2⟩ := except_bind_ok _ _ _ h
  rcases hollis_rid_loop_spec _ r hr with ⟨h1, hfind⟩ | ⟨h1, hfind⟩
  · rw [if_pos (by simpa using h1)] at h2
    have hv : r = v := except_pure_ok r v h2
    subst hv
    unfold hollisNumberSpec hollisStepASpec
    rw [hfind]
  · subst h1
    rw [if_neg (by simp)] at h2
    unfold hollisNumberSpec hollisStepASpec
    rw [hfind]
    cases hrel : hollis_related mods with
    | some d =>
      rw [hrel] at h2
      exact (except_pure_ok d v h2).symm
    | none =>
      rw [hrel] at h2
      cases hext : hollis_extension mods with
      | some d =>
        rw [hext] at h2
        exact (except_pure_ok d v h2).symm
      | none =>
        rw [hext] at h2
        exact (except_pure_ok "" v h2).symm

/-- C1 witness. -/
theorem hollis_fallback_chain_witness :
    "990012345670203941" = hollisNumberSpec c1mods :=
  hollis_fallback_chain.1 c1mods Node.null "990012345670203941" hollis_fallback_chain.2.1

-- ---------------- C2: title extraction ----------------

theorem filterMap_congr_mem {α β : Type} (l : List α) (f g : α → Option β)
    (h : ∀ a ∈ l, f a = g a) : l.filterMap f = l.filterMap g := by
  induction l with
  | nil => rfl
  | cons x xs ih =>
    simp only [List.filterMap_cons, h x (by simp)]
    rw [ih (fun a ha => h a (by simp [ha]))]

theorem optTruthy_eq_getD (o : Option String) : optTruthy o = ((o.getD "") != "") := by
  cases o <;> simp [optTruthy]

theorem intercalate_go_nil (acc s : String) : String.intercalate.go acc s [] = acc := rfl

theorem intercalate_go_cons (acc s a : String) (as : List String) :
    String.intercalate.go acc s (a :: as) = String.intercalate.go (acc ++ s ++ a) s as := rfl

theorem compose_title_eq_spec (non t sub : Option String) (ht : optTruthy t = true) :
    compose_title non t sub =
      (if (non.getD "") != "" then (non.getD "") ++ " " ++ (t.getD "") else (t.getD "")) ++
        (if (sub.getD "") != "" then ": " ++ (sub.getD "") else "") := by
  cases t with
  | none => simp [optTruthy] at ht
  | some ts =>
    have hts : ts ≠ "" := by simpa [optTruthy] using ht
    cases non with
    | none =>
      cases sub with
      | none => simp [compose_title, String.intercalate, intercalate_go_nil,
          intercalate_go_cons, String.append_assoc, hts]
      | some ss => by_cases hss : ss = "" <;>
          simp [compose_title, String.intercalate, intercalate_go_nil,
            intercalate_go_cons, String.append_assoc, hts, hss]
    | some ns =>
      by_cases hns : ns = ""
      · cases sub with
        | none => simp [compose_title, String.intercalate, intercalate_go_nil,
            intercalate_go_cons, String.append_assoc, hts, hns]
        | some ss => by_cases hss : ss = "" <;>
            simp [compose_title, String.intercalate, intercalate_go_nil,
              intercalate_go_cons, String.append_assoc, hts, hns, hss]
      · cases sub with
        | none => simp [compose_title, String.intercalate, intercalate_go_nil,
            intercalate_go_cons, String.append_assoc, hts, hns]
        | some ss => by_cases hss : ss = "" <;>
            simp [compose_title, String.intercalate, intercalate_go_nil,
              intercalate_go_cons, String.append_assoc, hts, hns, hss]

theorem extract_title_loop_spec :
    ∀ (l : List Node) (out : List String), extract_title_loop l = Except.ok out →
      out = l.filterMap (fun ti =>
        if optTruthy (get_text ti [pk "title"]) &&
            titleTypeOk (pyLower (attrSpec ti "@type")) then
          some (compose_title (get_text ti [pk "nonSort"]) (get_text ti [pk "title"])
            (get_text ti [pk "subTitle"]))
        else none) := by
  intro l
  induction l with
  | nil =>
    intro out h
    simp [extract_title_loop] at h
    simp [← h]
  | cons ti rest ih =>
    intro out h
    simp only [extract_title_loop] at h
    obtain ⟨tt, htt, h2⟩ := except_bind_ok _ _ _ h
    obtain ⟨s, hs, hmap⟩ := except_map_ok _ _ _ htt
    obtain rfl : s = attrSpec ti "@type" := attrOr_ok_spec ti "@type" s hs
    subst hmap
    obtain ⟨tail, htail, h3⟩ := except_bind_ok _ _ _ h2
    by_cases hcond : (optTruthy (get_text ti [pk "title"]) &&
        titleTypeOk (pyLower (attrSpec ti "@type"))) = true
    · rw [if_pos hcond] at h3
      have hout : compose_title (get_text ti [pk "nonSort"]) (get_text ti [pk "title"])
          (get_text ti [pk "subTitle"]) :: tail = out := except_pure_ok _ _ h3
      subst hout
      simp only [List.filterMap_cons, if_pos hcond]
      rw [ih tail htail]
    · rw [if_neg hcond] at h3
      have hout : tail = out := except_pure_ok _ _ h3
      subst hout
      simp only [List.filterMap_cons, if_neg hcond]
      exact ih tail htail

/-- C2: the Title extractor accepts only title-group entries whose type
attribute is absent (falsy) or lowercases to "translated", composes
each accepted entry as nonSort, space, title, optionally ": " and the
subtitle, and returns only the first accepted entry ("" if none): every
returned value equals the spec-side titleSpec. On the concrete
title-group list with a uniform entry and an untyped entry, Title is
"The Store: A Novel" and Variant-Title is "X". -/
theorem title_extractor_spec :
    (∀ (mods : Node) (v : String), extract_title mods = Except.ok v → v = titleSpec mods)
    ∧ extract_title c2mods = Except.ok "The Store: A Novel"
    ∧ extract_variant_titles c2mods = Except.ok "X" := by
  refine ⟨?_, by decide, by decide⟩
  intro mods v h
  simp only [extract_title] at h
  obtain ⟨out, hout, hmap⟩ := except_map_ok _ _ _ h
  subst hmap
  rw [extract_title_loop_spec _ _ hout]
  unfold titleSpec
  congr 1
  apply filterMap_congr_mem
  intro ti _
  by_cases hcond : (optTruthy (get_text ti [pk "title"]) &&
      titleTypeOk (pyLower (attrSpec ti "@type"))) = true
  · have hcond2 := hcond
    rw [Bool.and_eq_true] at hcond2
    rw [if_pos hcond]
    rw [if_pos (by
      rw [← optTruthy_eq_getD]
      exact hcond)]
    rw [compose_title_eq_spec _ _ _ hcond2.1]
  · rw [if_neg hcond]
    rw [if_neg (by
      rw [← optTruthy_eq_getD]
      exact hcond)]

/-- C2 witness. -/
theorem title_extractor_spec_witness :
    "The Store: A Novel" = titleSpec c2mods :=
  title_extractor_spec.1 c2mods "The Store: A Novel" title_extractor_spec.2.1

-- ---------------- C3: creators ----------------

theorem namePartText_ok_spec (np : Node) (s : String) (h : namePartText np = Except.ok s) :
    s = namePartTextSpec np := by
  cases np with
  | dict l =>
    simp only [namePartText, namePartTextSpec] at h ⊢
    cases hg : get_text (.dict l) [] with
    | none => rw [hg] at h; simp at h
    | some t =>
      rw [hg] at h
      simp at h
      simpa using h.symm
  | null =>
    simp only [namePartText, namePartTextSpec] at h ⊢
    exact (Except.ok.inj h).symm
  | str t =>
    simp only [namePartText, namePartTextSpec] at h ⊢
    exact (Except.ok.inj h).symm
  | list xs =>
    simp only [namePartText, namePartTextSpec] at h ⊢
    exact (Except.ok.inj h).symm

theorem displayParts_spec :
    ∀ (l : List Node) (od : List String × List String), displayParts l = Except.ok od →
      od.1 = (((l.map (fun np => (namePartTextSpec np, pyLower (attrSpec np "@type")))).filter
          (fun p => p.1 != "" && p.2 != "date")).map Prod.fst) ∧
      od.2 = (((l.map (fun np => (namePartTextSpec np, pyLower (attrSpec np "@type")))).filter
          (fun p => p.1 != "" && p.2 == "date")).map Prod.fst) := by
  intro l
  induction l with
  | nil =>
    intro od h
    simp only [displayParts] at h
    have : (([], []) : List String × List String) = od := except_pure_ok _ _ h
    subst this
    simp
  | cons np rest ih =>
    intro od h
    simp only [displayParts] at h
    obtain ⟨txt, htxt, h2⟩ := except_bind_ok _ _ _ h
    have htxts : txt = namePartTextSpec np := namePartText_ok_spec np txt htxt
    subst htxts
    by_cases hempty : (namePartTextSpec np == "") = true
    · rw [if_pos hempty] at h2
      have hs := ih od h2
      have h0 : namePartTextSpec np = "" := by simpa using hempty
      constructor
      · simp [List.filter_cons, h0, hs.1]
      · simp [List.filter_cons, h0, hs.2]
    · rw [if_neg hempty] at h2
      obtain ⟨tp, htp, h3⟩ := except_bind_ok _ _ _ h2
      obtain ⟨s, hs0, hmap⟩ := except_map_ok _ _ _ htp
      obtain rfl : s = attrSpec np "@type" := attrOr_ok_spec np "@type" s hs0
      subst hmap
      obtain ⟨od2, hod2, h4⟩ := except_bind_ok _ _ _ h3
      obtain ⟨o2, d2⟩ := od2
      have ihs := ih (o2, d2) hod2
      simp only at ihs
      have hneq : namePartTextSpec np ≠ "" := by simpa using hempty
      by_cases hdate : (pyLower (attrSpec np "@type") == "date") = true
      · rw [if_pos hdate] at h4
        have hod : ((o2, namePartTextSpec np :: d2) : List String × List String) = od :=
          except_pure_ok _ _ h4
        subst hod
        have hdeq : pyLower (attrSpec np "@type") = "date" := by simpa using hdate
        constructor
        · simp [List.filter_cons, hdeq, hneq, ihs.1]
        · simp [List.filter_cons, hdeq, hneq, ihs.2]
      · rw [if_neg hdate] at h4
        have hod : ((namePartTextSpec np :: o2, d2) : List String × List String) = od :=
          except_pure_ok _ _ h4
        subst hod
        have hdne : pyLower (attrSpec np "@type") ≠ "date" := by simpa using hdate
        constructor
        · simp [List.filter_cons, hdne, hneq, ihs.1]
        · simp [List.filter_cons, hdne, hneq, ihs.2]

theorem display_ok_spec (n : Node) (s : String) (h : display_name_with_dates n = Except.ok s) :
    s = displayNameSpec n := by
  simp only [display_name_with_dates] at h
  obtain ⟨od, hod, h2⟩ := except_bind_ok _ _ _ h
  obtain ⟨o, d⟩ := od
  have hsp := displayParts_spec _ _ hod
  have ho : o = displayOthersSpec n := hsp.1
  have hd : d = displayDatesSpec n := hsp.2
  subst ho
  subst hd
  have hs := except_pure_ok _ _ h2
  rw [← hs]
  rfl

theorem roleTermsCreator_spec :
    ∀ (l : List Node) (b : Bool), roleTermsCreator l = Except.ok b →
      b = l.any (fun rt =>
        ((pyLower (attrSpec rt "@type") == "code") &&
          want_codes.contains (pyLower (pyStrip ((get_text rt []).getD "")))) ||
        want_texts.contains (pyLower (pyStrip ((get_text rt []).getD "")))) := by
  intro l
  induction l with
  | nil =>
    intro b h
    simp only [roleTermsCreator] at h
    have : false = b := except_pure_ok _ _ h
    subst this
    simp
  | cons rt rest ih =>
    intro b h
    simp only [roleTermsCreator] at h
    obtain ⟨ic, hic, h2⟩ := except_bind_ok _ _ _ h
    have hics : ic = (pyLower (attrSpec rt "@type") == "code") := by
      cases rt with
      | dict l2 =>
        obtain ⟨s, hs, hmap⟩ := except_map_ok _ _ _ hic
        rw [← hmap, attrOr_ok_spec _ _ _ hs]
      | null => simpa [attrSpec, pyLower] using (Except.ok.inj hic).symm
      | str t => simpa [attrSpec, pyLower] using (Except.ok.inj hic).symm
      | list xs => simpa [attrSpec, pyLower] using (Except.ok.inj hic).symm
    obtain ⟨rb, hrb, h3⟩ := except_bind_ok _ _ _ h2
    have hout := except_pure_ok _ _ h3
    subst hout
    rw [List.any_cons, hics, ih rb hrb]

theorem rolesCreator_spec :
    ∀ (l : List Node) (b : Bool), rolesCreator l = Except.ok b →
      b = l.any (fun role => (as_list (nget role "roleTerm")).any (fun rt =>
        ((pyLower (attrSpec rt "@type") == "code") &&
          want_codes.contains (pyLower (pyStrip ((get_text rt []).getD "")))) ||
        want_texts.contains (pyLower (pyStrip ((get_text rt []).getD ""))))) := by
  intro l
  induction l with
  | nil =>
    intro b h
    simp only [rolesCreator] at h
    have : false = b := except_pure_ok _ _ h
    subst this
    simp
  | cons role rest ih =>
    intro b h
    simp only [rolesCreator] at h
    obtain ⟨b1, hb1, h2⟩ := except_bind_ok _ _ _ h
    obtain ⟨b2, hb2, h3⟩ := except_bind_ok _ _ _ h2
    have hout := except_pure_ok _ _ h3
    subst hout
    rw [List.any_cons, roleTermsCreator_spec _ _ hb1, ih b2 hb2]

theorem roleMatchSpec_eq (n : Node) :
    roleMatchSpec n = (as_list (nget n "role")).any (fun role =>
      (as_list (nget role "roleTerm")).any (fun rt =>
        ((pyLower (attrSpec rt "@type") == "code") &&
          want_codes.contains (pyLower (pyStrip ((get_text rt []).getD "")))) ||
        want_texts.contains (pyLower (pyStrip ((get_text rt []).getD ""))))) := rfl

theorem extract_creators_loop_spec :
    ∀ (l : List Node) (out : List String), extract_creators_loop l = Except.ok out →
      out = l.filterMap (fun n =>
        if creator_includes n then
          (if displayNameSpec n != "" then some (displayNameSpec n) else none)
        else none) := by
  intro l
  induction l with
  | nil =>
    intro out h
    simp only [extract_creators_loop] at h
    have : ([] : List String) = out := except_pure_ok _ _ h
    subst this
    simp
  | cons n rest ih =>
    intro out h
    simp only [extract_creators_loop] at h
    obtain ⟨nt, hnt, h2⟩ := except_bind_ok _ _ _ h
    obtain ⟨s, hs, hmap⟩ := except_map_ok _ _ _ hnt
    obtain rfl : s = attrSpec n "@type" := attrOr_ok_spec n "@type" s hs
    subst hmap
    by_cases hskip : (pyLower (attrSpec n "@type") != "" &&
        pyLower (attrSpec n "@type") != "personal") = true
    · rw [if_pos hskip] at h2
      have hninc : creator_includes n = false := by
        unfold creator_includes
        rw [Bool.and_eq_true] at hskip
        have h1 : (pyLower (attrSpec n "@type") == "") = false := by
          simpa using hskip.1
        have hp : (pyLower (attrSpec n "@type") == "personal") = false := by
          simpa using hskip.2
        simp [h1, hp]
      have hf : (if creator_includes n = true then
          (if (displayNameSpec n != "") = true then some (displayNameSpec n) else none)
          else none) = (none : Option String) := by
        simp [hninc]
      rw [@List.filterMap_cons_none Node String (fun n0 => if creator_includes n0 = true then (if (displayNameSpec n0 != "") = true then some (displayNameSpec n0) else none) else none) n rest hf]
      exact ih out h2
    · rw [if_neg hskip] at h2
      obtain ⟨isc, hisc, h3⟩ := except_bind_ok _ _ _ h2
      have hiscs : isc = roleMatchSpec n := by
        rw [roleMatchSpec_eq]
        exact rolesCreator_spec _ _ hisc
      obtain ⟨keep, hkeep, h4⟩ := except_bind_ok _ _ _ h3
      have htyok2 : pyLower (attrSpec n "@type") = "" ∨
          pyLower (attrSpec n "@type") = "personal" := by
        by_cases ha : pyLower (attrSpec n "@type") = ""
        · exact Or.inl ha
        · by_cases hb : pyLower (attrSpec n "@type") = "personal"
          · exact Or.inr hb
          · exact absurd (by simp [ha, hb] :
              (pyLower (attrSpec n "@type") != "" &&
                pyLower (attrSpec n "@type") != "personal") = true) hskip
      have htyok : (pyLower (attrSpec n "@type") == "" ||
          pyLower (attrSpec n "@type") == "personal") = true := by
        rcases htyok2 with h5 | h5 <;> simp [h5]
      have hkeepval : keep = (roleMatchSpec n ||
          (!roleMatchSpec n && (pyLower (attrSpec n "@usage") == "primary"))) := by
        by_cases hc : isc = true
        · rw [if_pos hc] at hkeep
          have hkt := except_pure_ok _ _ hkeep
          rw [← hkt, ← hiscs, hc]
          simp
        · rw [if_neg hc] at hkeep
          obtain ⟨su, hsu0, hmap2⟩ := except_bind_ok _ _ _ hkeep
          obtain ⟨su2, hsu, hmap3⟩ := except_map_ok _ _ _ hsu0
          obtain rfl : su2 = attrSpec n "@usage" := attrOr_ok_spec n "@usage" su2 hsu
          subst hmap3
          have hkt := except_pure_ok _ _ hmap2
          have hisf : roleMatchSpec n = false := by
            rw [← hiscs]
            revert hc
            cases isc <;> simp
          rw [← hkt, hisf]
          simp
      have hinc : creator_includes n = keep := by
        unfold creator_includes
        rw [hkeepval, htyok]
        simp
      by_cases hk : keep = true
      · rw [if_pos hk] at h4
        obtain ⟨disp, hdisp, h5⟩ := except_bind_ok _ _ _ h4
        have hdisps : disp = displayNameSpec n := display_ok_spec n disp hdisp
        subst hdisps
        obtain ⟨tail, htail, h6⟩ := except_bind_ok _ _ _ h5
        have hout := except_pure_ok _ _ h6
        subst hout
        by_cases hd : (displayNameSpec n != "") = true
        · rw [if_pos hd]
          have hf : (if creator_includes n = true then
              (if (displayNameSpec n != "") = true then some (displayNameSpec n) else none)
              else none) = some (displayNameSpec n) := by
            simp [hinc, hk, hd]
          rw [@List.filterMap_cons_some Node String (fun n0 => if creator_includes n0 = true then (if (displayNameSpec n0 != "") = true then some (displayNameSpec n0) else none) else none) n rest (displayNameSpec n) hf]
          rw [ih tail htail]
        · rw [if_neg hd]
          have hf : (if creator_includes n = true then
              (if (displayNameSpec n != "") = true then some (displayNameSpec n) else none)
              else none) = (none : Option String) := by
            simp [hinc, hk, hd]
          rw [@List.filterMap_cons_none Node String (fun n0 => if creator_includes n0 = true then (if (displayNameSpec n0 != "") = true then some (displayNameSpec n0) else none) else none) n rest hf]
          exact ih tail htail
      · rw [if_neg hk] at h4
        have hkf : keep = false := by
          revert hk
          cases keep <;> simp
        have hf : (if creator_includes n = true then
            (if (displayNameSpec n != "") = true then some (displayNameSpec n) else none)
            else none) = (none : Option String) := by
          simp [hinc, hkf]
        rw [@List.filterMap_cons_none Node String (fun n0 => if creator_includes n0 = true then (if (displayNameSpec n0 != "") = true then some (displayNameSpec n0) else none) else none) n rest hf]
        exact ih out h4

/-- C3: whenever the Creator extractor returns a value it equals the
spec-side creatorsSpec (names of absent or personal type are included
exactly when some role term matches the fixed code or word sets, or,
when no role term matches, usage equals primary; displays concatenate
non-date name parts, fall back to displayForm, and append date parts
parenthetically). Concretely, the aut-coded name with parts Doe, Jane
and date 1950- displays as "Doe Jane (1950-)" and is included, while an
edt-only name is excluded from Creator yet appears as name1 of the
positional split. -/
theorem creators_extractor_spec :
    (∀ (mods : Node) (v : String), extract_creators mods = Except.ok v → v = creatorsSpec mods)
    ∧ extract_creators (Node.dict [("name", c3aut)]) = Except.ok "Doe Jane (1950-)"
    ∧ extract_creators (Node.dict [("name", c3edt)]) = Except.ok ""
    ∧ extract_personal_names_split (Node.dict [("name", c3edt)]) =
        Except.ok ("Smith, Bob", "", "", "") := by
  refine ⟨?_, by decide, by decide, by decide⟩
  intro mods v h
  simp only [extract_creators] at h
  obtain ⟨out, hout, hmap⟩ := except_map_ok _ _ _ h
  subst hmap
  rw [extract_creators_loop_spec _ _ hout]
  rfl

/-- C3 witness. -/
theorem creators_extractor_spec_witness :
    "Doe Jane (1950-)" = creatorsSpec (Node.dict [("name", c3aut)]) :=
  creators_extractor_spec.1 _ _ creators_extractor_spec.2.1

-- ---------------- C4: deduplication ----------------

theorem except_ok_bind {ε α β : Type} (a : α) (f : α → Except ε β) :
    (Except.ok a >>= f) = f a := rfl

theorem contains_iff_mem {α : Type} [DecidableEq α] (l : List α) (a : α) :
    l.contains a = true ↔ a ∈ l := List.elem_iff

theorem process_items_drop (maxR : Int) (st : HarvestState) (it : Node) (rest : List Node)
    (row : Row) (hrow : row_from_item it = Except.ok row)
    (hseen : st.seen.contains (dedup_key row) = true) :
    process_items maxR st (it :: rest) = process_items maxR st rest := by
  simp only [process_items]
  rw [hrow, except_ok_bind]
  rw [if_pos hseen]

theorem process_items_inv (maxR : Int) :
    ∀ (items : List Node) (st st2 : HarvestState),
      (∀ r ∈ st.rows, dedup_key r ∈ st.seen) →
      (st.rows.map dedup_key).Nodup →
      process_items maxR st items = Except.ok st2 →
      (∀ r ∈ st2.rows, dedup_key r ∈ st2.seen) ∧ (st2.rows.map dedup_key).Nodup := by
  intro items
  induction items with
  | nil =>
    intro st st2 h1 h2 h
    simp only [process_items] at h
    have := Except.ok.inj h
    subst this
    exact ⟨h1, h2⟩
  | cons it rest ih =>
    intro st st2 h1 h2 h
    simp only [process_items] at h
    obtain ⟨row, hrow, h3⟩ := except_bind_ok _ _ _ h
    by_cases hseen : st.seen.contains (dedup_key row) = true
    · rw [if_pos hseen] at h3
      exact ih st st2 h1 h2 h3
    · rw [if_neg hseen] at h3
      have hnotmem : dedup_key row ∉ st.seen := by
        intro hm
        exact hseen ((contains_iff_mem st.seen (dedup_key row)).mpr hm)
      have hAcc1 : ∀ r ∈ (acceptRow st row).rows, dedup_key r ∈ (acceptRow st row).seen := by
        intro r hr
        simp only [acceptRow] at hr ⊢
        rcases List.mem_append.mp hr with hm | hm
        · exact List.mem_cons_of_mem _ (h1 r hm)
        · simp at hm
          subst hm
          exact List.mem_cons_self _ _
      have hAcc2 : ((acceptRow st row).rows.map dedup_key).Nodup := by
        simp only [acceptRow]
        rw [List.map_append]
        refine List.Nodup.append h2 (by simp) ?_
        intro a ha hb
        simp at hb
        subst hb
        rcases List.mem_map.mp ha with ⟨r, hr, hkey⟩
        exact hnotmem (hkey ▸ h1 r hr)
      by_cases hcap : maxR ≤ ((acceptRow st row).written : Int)
      · rw [if_pos hcap] at h3
        have := Except.ok.inj h3
        subst this
        exact ⟨hAcc1, hAcc2⟩
      · rw [if_neg hcap] at h3
        exact ih _ st2 hAcc1 hAcc2 h3

/-- C4: the deduplication key of a row is its hollis number when
nonempty, else the (identifier, permalink) pair; a record whose key was
already seen is silently dropped (processing it is identical to
skipping it: no row, no count, no maxima change); the accepted rows of
any batch started from the initial state have pairwise distinct keys;
and the two concrete fetched records with identical HOLLIS numbers
yield exactly one output row. -/
theorem dedup_batch_spec :
    (∀ r : Row, (r.hollis_number ≠ "" → dedup_key r = .hollis r.hollis_number)
        ∧ (r.hollis_number = "" → dedup_key r = .pair r.identifier r.permalink))
    ∧ (∀ (maxR : Int) (st : HarvestState) (it : Node) (rest : List Node) (row : Row),
        row_from_item it = Except.ok row → st.seen.contains (dedup_key row) = true →
        process_items maxR st (it :: rest) = process_items maxR st rest)
    ∧ (∀ (maxR : Int) (items : List Node) (st2 : HarvestState),
        process_items maxR initState items = Except.ok st2 →
        (st2.rows.map dedup_key).Nodup)
    ∧ (process_items 2000 initState [c4itemA, c4itemB]).map (fun st => st.rows.length) =
        Except.ok 1
    ∧ (row_from_item c4itemA).map Row.hollis_number = Except.ok "990012345670203941"
    ∧ (row_from_item c4itemB).map Row.hollis_number = Except.ok "990012345670203941"
    ∧ (row_from_item c4itemA).map Row.title = Except.ok "Record A"
    ∧ (row_from_item c4itemB).map Row.title = Except.ok "Record B" := by
  refine ⟨?_, ?_, ?_, by decide, by decide, by decide, by decide, by decide⟩
  · intro r
    constructor
    · intro h
      simp [dedup_key, h]
    · intro h
      simp [dedup_key, h]
  · intro maxR st it rest row hrow hseen
    exact process_items_drop maxR st it rest row hrow hseen
  · intro maxR items st2 h
    exact (process_items_inv maxR items initState st2 (by simp [initState]) (by simp [initState]) h).2

/-- C4 witness. -/
theorem dedup_batch_spec_witness :
    dedup_key c4rowA = DedupKey.hollis "990012345670203941" ∧
    process_items 2000
      { rows := [], seen := [DedupKey.hollis "990012345670203941"],
        maxTocs := 0, maxNotes := 0, written := 0 } [c4itemA] =
      process_items 2000
        { rows := [], seen := [DedupKey.hollis "990012345670203941"],
          maxTocs := 0, maxNotes := 0, written := 0 } [] ∧
    ((acceptRow initState c4rowA).rows.map dedup_key).Nodup :=
  ⟨(dedup_batch_spec.1 c4rowA).1 (by decide),
   dedup_batch_spec.2.1 2000 _ c4itemA [] c4rowA (by decide) (by decide),
   dedup_batch_spec.2.2.1 2000 [c4itemA] (acceptRow initState c4rowA) (by decide)⟩

-- ---------------- C5: dynamic columns ----------------

theorem process_items_maxima (maxR : Int) :
    ∀ (items : List Node) (st st2 : HarvestState),
      st.maxTocs = (st.rows.map (fun r => r.tocs.length)).foldl max 0 →
      st.maxNotes = (st.rows.map (fun r => r.notes.length)).foldl max 0 →
      process_items maxR st items = Except.ok st2 →
      st2.maxTocs = (st2.rows.map (fun r => r.tocs.length)).foldl max 0 ∧
      st2.maxNotes = (st2.rows.map (fun r => r.notes.length)).foldl max 0 := by
  intro items
  induction items with
  | nil =>
    intro st st2 h1 h2 h
    simp only [process_items] at h
    have := Except.ok.inj h
    subst this
    exact ⟨h1, h2⟩
  | cons it rest ih =>
    intro st st2 h1 h2 h
    simp only [process_items] at h
    obtain ⟨row, hrow, h3⟩ := except_bind_ok _ _ _ h
    by_cases hseen : st.seen.contains (dedup_key row) = true
    · rw [if_pos hseen] at h3
      exact ih st st2 h1 h2 h3
    · rw [if_neg hseen] at h3
      have hA1 : (acceptRow st row).maxTocs =
          ((acceptRow st row).rows.map (fun r => r.tocs.length)).foldl max 0 := by
        simp only [acceptRow]
        rw [List.map_append, List.foldl_append, h1]
        simp
      have hA2 : (acceptRow st row).maxNotes =
          ((acceptRow st row).rows.map (fun r => r.notes.length)).foldl max 0 := by
        simp only [acceptRow]
        rw [List.map_append, List.foldl_append, h2]
        simp
      by_cases hcap : maxR ≤ ((acceptRow st row).written : Int)
      · rw [if_pos hcap] at h3
        have := Except.ok.inj h3
        subst this
        exact ⟨hA1, hA2⟩
      · rw [if_neg hcap] at h3
        exact ih _ st2 hA1 hA2 h3

/-- C5: every output row has exactly as many cells as the dynamic
header (the fixed base catalog plus tocN and noteM tails); a numbered
note slot beyond the length of a row's notes list holds the empty
string; the running maxima of a batch started from the initial state
equal the maximum table-of-contents and notes list lengths over the
accepted rows; and the concrete batch whose maximum notes length is 3
produces header note1, note2, note3. -/
theorem dynamic_columns_spec :
    (∀ (r : Row) (mT mN : Nat), (out_row r mT mN).length = (fieldnames mT mN).length)
    ∧ (∀ (r : Row) (mT mN i : Nat), i < mN → r.notes.length ≤ i →
        (out_row r mT mN).get? (BASE_COLUMNS.length + mT + i) = some "")
    ∧ (∀ (maxR : Int) (items : List Node) (st2 : HarvestState),
        process_items maxR initState items = Except.ok st2 →
        st2.maxTocs = (st2.rows.map (fun r => r.tocs.length)).foldl max 0 ∧
        st2.maxNotes = (st2.rows.map (fun r => r.notes.length)).foldl max 0)
    ∧ (process_items 2000 initState [c5item]).map
        (fun st => fieldnames st.maxTocs st.maxNotes) =
        Except.ok (BASE_COLUMNS ++ ["note1", "note2", "note3"]) := by
  refine ⟨?_, ?_, ?_, by decide⟩
  · intro r mT mN
    simp [out_row, fieldnames]
  · intro r mT mN i hi hlen
    unfold out_row
    have hlenAB : ((BASE_COLUMNS.map (rowGet r)) ++
        (List.range mT).map (fun i => r.tocs.getD i "")).length = BASE_COLUMNS.length + mT := by
      simp
    rw [List.append_assoc]
    rw [List.get?_append_right (by simp; omega)]
    simp only [List.length_map]
    rw [List.get?_append_right (by simp; omega)]
    simp only [List.length_map, List.length_range]
    have hidx : BASE_COLUMNS.length + mT + i - BASE_COLUMNS.length - mT = i := by omega
    rw [hidx]
    rw [List.get?_map]
    rw [List.get?_range hi]
    simp [List.getD, List.getElem?_eq_none hlen]
  · intro maxR items st2 h
    exact process_items_maxima maxR items initState st2 (by simp [initState])
      (by simp [initState]) h

/-- C5 witness. -/
theorem dynamic_columns_spec_witness :
    (out_row c4rowA 0 3).get? (BASE_COLUMNS.length + 0 + 1) = some "" ∧
    (initState.maxTocs = (initState.rows.map (fun r => r.tocs.length)).foldl max 0 ∧
      initState.maxNotes = (initState.rows.map (fun r => r.notes.length)).foldl max 0) :=
  ⟨dynamic_columns_spec.2.1 c4rowA 0 3 1 (by decide) (by decide),
   dynamic_columns_spec.2.2.1 2000 [] initState rfl⟩

-- ---------------- C10: untyped names are both corporate and personal ----------------

theorem pyLower_empty : pyLower "" = "" := rfl

/-- C10: a name entry with no type attribute whose first name-part
resolves to non-empty text is classified as both corporate and
personal: its display string is the corporate_name value and also the
first positional personal-name value of the same record; concretely the
row built from the untyped "Acme Corp" name carries "Acme Corp" in both
the corporate_name and the name1 column. -/
theorem untyped_name_dual_classification :
    (∀ (n : Node) (disp s : String),
        as_list n = [n] →
        attrOr n "@type" = Except.ok "" →
        get_text n [pk "namePart"] = some s → s ≠ "" →
        (match (as_list (nget n "namePart")).head? with
         | some (.str s0) => s0 ≠ ""
         | some _ => True
         | none => False) →
        display_name_with_dates n = Except.ok disp → disp ≠ "" →
        extract_corporate_names (Node.dict [("name", n)]) = Except.ok disp ∧
        extract_personal_names_split (Node.dict [("name", n)]) =
          Except.ok (disp, "", "", ""))
    ∧ (row_from_item c10item).map (fun r => (r.corporate_name, r.name1)) =
        Except.ok ("Acme Corp", "Acme Corp") := by
  refine ⟨?_, by decide⟩
  intro n disp s hsingle htype hgt hs hhead hdisp hdispne
  have hng : nget (Node.dict [("name", n)]) "name" = n := by simp [nget, pairsLookup]
  have h1 : Except.map pyLower (attrOr n "@type") = Except.ok "" := by
    rw [htype]
    rfl
  have hcond : corporateCond n "" = Except.ok true := by
    unfold corporateCond
    rw [if_neg (by decide), if_pos (by decide)]
    rw [hgt]
    rw [show optTruthy (some s) = true by simp [optTruthy, hs]]
    rw [if_pos rfl]
    cases hh : (as_list (nget n "namePart")).head? with
    | none =>
      rw [hh] at hhead
      exact absurd hhead (by simp)
    | some h0 =>
      rw [hh] at hhead
      cases h0 with
      | str s0 => simp at hhead; simp [hhead]
      | null => rfl
      | list l0 => rfl
      | dict d0 => rfl
  constructor
  · simp only [extract_corporate_names, hng, hsingle, extract_corporate_loop]
    rw [h1, except_ok_bind]
    rw [hcond, except_ok_bind, if_pos rfl]
    rw [hdisp, except_ok_bind]
    rw [except_ok_bind]
    rw [if_pos (by simp [hdispne] : (disp != "") = true)]
    rfl
  · simp only [extract_personal_names_split, hng, hsingle, personal_split_loop]
    rw [h1, except_ok_bind]
    rw [if_neg (by decide)]
    rw [hdisp, except_ok_bind]
    rw [except_ok_bind]
    rw [if_pos (by simp [hdispne] : (disp != "") = true)]
    rfl

/-- C10 witness. -/
theorem untyped_name_dual_classification_witness :
    extract_corporate_names (Node.dict [("name", c10name)]) = Except.ok "Acme Corp" ∧
    extract_personal_names_split (Node.dict [("name", c10name)]) =
      Except.ok ("Acme Corp", "", "", "") :=
  untyped_name_dual_classification.1 c10name "Acme Corp" "Acme Corp" (by decide) (by decide)
    (by decide) (by decide) (show ("Acme Corp" : String) ≠ "" by decide) (by decide) (by decide)

-- ---------------- C9: raise-freedom infrastructure ----------------

theorem pairsLookup_mem :
    ∀ (l : List (String × Node)) (k : String) (v : Node),
      pairsLookup l k = some v → (k, v) ∈ l := by
  intro l k v
  induction l with
  | nil => intro h; simp [pairsLookup] at h
  | cons hd tl ih =>
    rcases hd with ⟨k1, v1⟩
    intro h
    by_cases hk : k1 = k
    · subst hk
      rw [pairsLookup, if_pos rfl] at h
      simp at h
      simp [h]
    · rw [pairsLookup, if_neg hk] at h
      exact List.mem_cons_of_mem _ (ih h)

theorem findLocal_mem :
    ∀ (l : List (String × Node)) (k : String) (v : Node),
      findLocal l k = some v → ∃ k0, (k0, v) ∈ l ∧ localName k0 = k := by
  intro l k v
  induction l with
  | nil => intro h; simp [findLocal] at h
  | cons hd tl ih =>
    rcases hd with ⟨k1, v1⟩
    intro h
    rw [findLocal, List.findSome?_cons] at h
    by_cases hk : localName k1 = k
    · rw [if_pos hk] at h
      simp at h
      exact ⟨k1, by simp [h], hk⟩
    · rw [if_neg hk] at h
      obtain ⟨k0, hmem, hloc⟩ := ih h
      exact ⟨k0, List.mem_cons_of_mem _ hmem, hloc⟩

theorem wfList_mem (l : List Node) (h : wfList l = true) : ∀ x ∈ l, wf x = true := by
  induction l with
  | nil => intro x hx; simp at hx
  | cons hd tl ih =>
    rw [wfList, Bool.and_eq_true] at h
    intro x hx
    rcases List.mem_cons.mp hx with h2 | h2
    · exact h2 ▸ h.1
    · exact ih h.2 x h2

theorem wfPairs_parts (l : List (String × Node)) (h : wfPairs l = true) :
    ∀ k v, (k, v) ∈ l →
      (!pyStartsWith k "@" || attrValOk v) = true ∧
      (!(localName k == "namePart") || (as_list v).all namePartTextOk) = true ∧
      wf v = true := by
  induction l with
  | nil => intro k v hm; simp at hm
  | cons hd tl ih =>
    rcases hd with ⟨k1, v1⟩
    rw [wfPairs, Bool.and_eq_true, Bool.and_eq_true, Bool.and_eq_true] at h
    intro k v hm
    rcases List.mem_cons.mp hm with h2 | h2
    · obtain ⟨h3, h4⟩ := Prod.mk.inj h2
      subst h3
      subst h4
      exact ⟨h.1.1.1, h.1.1.2, h.1.2⟩
    · exact ih h.2 k v h2

theorem wf_nget (d : Node) (k : String) (h : wf d = true) : wf (nget d k) = true := by
  cases d with
  | dict l =>
    rw [wf] at h
    rw [nget]
    cases hl : pairsLookup l k with
    | some v => exact (wfPairs_parts l h k v (pairsLookup_mem l k v hl)).2.2
    | none =>
      cases hf : findLocal l k with
      | some v =>
        obtain ⟨k0, hmem, _⟩ := findLocal_mem l k v hf
        simp only [Option.getD]
        exact (wfPairs_parts l h k0 v hmem).2.2
      | none => rfl
  | null => rfl
  | str s => rfl
  | list xs => rfl

theorem wf_as_list (v : Node) (h : wf v = true) : ∀ x ∈ as_list v, wf x = true := by
  cases v with
  | null => intro x hx; simp [as_list] at hx
  | list l =>
    rw [wf] at h
    intro x hx
    exact wfList_mem l h x (by simpa [as_list] using hx)
  | str s => intro x hx; simp [as_list] at hx; subst hx; exact h
  | dict d => intro x hx; simp [as_list] at hx; subst hx; exact h

theorem wf_elem (d : Node) (k : String) (h : wf d = true) :
    ∀ x ∈ as_list (nget d k), wf x = true :=
  wf_as_list (nget d k) (wf_nget d k h)

theorem attrOr_wf_ok (n : Node) (key : String) (hwf : wf n = true)
    (hat : pyStartsWith key "@" = true) : ∃ s, attrOr n key = Except.ok s := by
  cases n with
  | dict l =>
    rw [wf] at hwf
    rw [attrOr]
    cases hl : pairsLookup l key with
    | none => exact ⟨"", rfl⟩
    | some v =>
      have hok := (wfPairs_parts l hwf key v (pairsLookup_mem l key v hl)).1
      rw [hat] at hok
      simp only [Bool.not_true, Bool.false_or] at hok
      cases v with
      | str s =>
        by_cases htr : truthy (Node.str s) = true
        · exact ⟨s, by
            show (if truthy (Node.str s) = true then Except.ok s else Except.ok "") = Except.ok s
            rw [if_pos htr]⟩
        · exact ⟨"", by
            show (if truthy (Node.str s) = true then Except.ok s else Except.ok "") = Except.ok ""
            rw [if_neg htr]⟩
      | null => exact ⟨"", rfl⟩
      | list xs =>
        have htr0 : (!truthy (Node.list xs)) = true := hok
        have htr : truthy (Node.list xs) = false := by simpa using htr0
        exact ⟨"", by
          show (if truthy (Node.list xs) = true then Except.error () else Except.ok "") =
            Except.ok ""
          rw [if_neg (by simp [htr])]⟩
      | dict d2 =>
        have htr0 : (!truthy (Node.dict d2)) = true := hok
        have htr : truthy (Node.dict d2) = false := by simpa using htr0
        exact ⟨"", by
          show (if truthy (Node.dict d2) = true then Except.error () else Except.ok "") =
            Except.ok ""
          rw [if_neg (by simp [htr])]⟩
  | null => exact ⟨"", rfl⟩
  | str s => exact ⟨"", rfl⟩
  | list xs => exact ⟨"", rfl⟩

theorem attrOr_map_lower_ok (n : Node) (key : String) (hwf : wf n = true)
    (hat : pyStartsWith key "@" = true) :
    ∃ s, Except.map pyLower (attrOr n key) = Except.ok s := by
  obtain ⟨s, hs⟩ := attrOr_wf_ok n key hwf hat
  exact ⟨pyLower s, by rw [hs]; rfl⟩

theorem nget_namePart_ok (n : Node) (hwf : wf n = true) :
    ∀ np ∈ as_list (nget n "namePart"), namePartTextOk np = true := by
  cases n with
  | dict l =>
    rw [wf] at hwf
    rw [nget]
    cases hl : pairsLookup l "namePart" with
    | some v =>
      have hok := (wfPairs_parts l hwf "namePart" v (pairsLookup_mem l "namePart" v hl)).2.1
      rw [show (localName "namePart" == "namePart") = true by decide] at hok
      simp only [Bool.not_true, Bool.false_or] at hok
      intro np hnp
      exact List.all_eq_true.mp hok np hnp
    | none =>
      cases hf : findLocal l "namePart" with
      | some v =>
        obtain ⟨k0, hmem, hloc⟩ := findLocal_mem l "namePart" v hf
        have hok := (wfPairs_parts l hwf k0 v hmem).2.1
        rw [show (localName k0 == "namePart") = true by simp [hloc]] at hok
        simp only [Bool.not_true, Bool.false_or] at hok
        intro np hnp
        exact List.all_eq_true.mp hok np (by simpa using hnp)
      | none => intro np hnp; simp [as_list] at hnp
  | null => intro np hnp; simp [nget, as_list] at hnp
  | str s => intro np hnp; simp [nget, as_list] at hnp
  | list xs => intro np hnp; simp [nget, as_list] at hnp

theorem namePartText_ok_of (np : Node) (h : namePartTextOk np = true) :
    ∃ s, namePartText np = Except.ok s := by
  cases np with
  | dict l =>
    have h2 : (textOf (Node.dict l)).isSome = true := h
    cases hg : textOf (Node.dict l) with
    | none => rw [hg] at h2; simp at h2
    | some t =>
      have hg2 : get_text (Node.dict l) [] = some t := hg
      refine ⟨pyStrip t, ?_⟩
      simp only [namePartText]
      rw [hg2]
  | null => exact ⟨"", rfl⟩
  | str t => exact ⟨pyStrip (pyStr (.str t)), rfl⟩
  | list xs => exact ⟨pyStrip (pyStr (.list xs)), rfl⟩

theorem displayParts_ok :
    ∀ l : List Node, (∀ np ∈ l, namePartTextOk np = true ∧ wf np = true) →
      ∃ od, displayParts l = Except.ok od := by
  intro l
  induction l with
  | nil => intro _; exact ⟨([], []), rfl⟩
  | cons np rest ih =>
    intro h
    obtain ⟨t, ht⟩ := namePartText_ok_of np (h np (by simp)).1
    simp only [displayParts]
    rw [ht, except_ok_bind]
    obtain ⟨od, hod⟩ := ih (fun x hx => h x (by simp [hx]))
    by_cases hempty : (t == "") = true
    · rw [if_pos hempty]
      exact ⟨od, hod⟩
    · rw [if_neg hempty]
      obtain ⟨s, hs⟩ := attrOr_map_lower_ok np "@type" (h np (by simp)).2 (by decide)
      rw [hs, except_ok_bind, hod, except_ok_bind]
      by_cases hdate : (s == "date") = true
      · rw [if_pos hdate]
        exact ⟨(od.1, t :: od.2), rfl⟩
      · rw [if_neg hdate]
        exact ⟨(t :: od.1, od.2), rfl⟩

theorem display_name_ok (n : Node) (hwf : wf n = true) :
    ∃ s, display_name_with_dates n = Except.ok s := by
  have hnp := nget_namePart_ok n hwf
  have hwfe := wf_elem n "namePart" hwf
  obtain ⟨od, hod⟩ := displayParts_ok (as_list (nget n "namePart"))
    (fun np hnp2 => ⟨hnp np hnp2, hwfe np hnp2⟩)
  simp only [display_name_with_dates]
  rw [hod, except_ok_bind]
  exact ⟨_, rfl⟩

theorem extract_title_loop_ok :
    ∀ l : List Node, (∀ x ∈ l, wf x = true) → ∃ out, extract_title_loop l = Except.ok out := by
  intro l
  induction l with
  | nil => intro _; exact ⟨[], rfl⟩
  | cons ti rest ih =>
    intro h
    obtain ⟨s, hs⟩ := attrOr_map_lower_ok ti "@type" (h ti (by simp)) (by decide)
    obtain ⟨tail, htail⟩ := ih (fun x hx => h x (by simp [hx]))
    simp only [extract_title_loop]
    rw [hs, except_ok_bind, htail, except_ok_bind]
    by_cases hc : (optTruthy (get_text ti [pk "title"]) && titleTypeOk s) = true
    · rw [if_pos hc]; exact ⟨_, rfl⟩
    · rw [if_neg hc]; exact ⟨_, rfl⟩

theorem extract_variant_loop_ok :
    ∀ l : List Node, (∀ x ∈ l, wf x = true) → ∃ out, extract_variant_loop l = Except.ok out := by
  intro l
  induction l with
  | nil => intro _; exact ⟨[], rfl⟩
  | cons ti rest ih =>
    intro h
    obtain ⟨s, hs⟩ := attrOr_map_lower_ok ti "@type" (h ti (by simp)) (by decide)
    obtain ⟨tail, htail⟩ := ih (fun x hx => h x (by simp [hx]))
    simp only [extract_variant_loop]
    rw [hs, except_ok_bind]
    by_cases hv : variantTypeOk s = true
    · rw [if_pos hv, htail, except_ok_bind]
      by_cases h1 : (optTruthy (get_text ti [pk "title"]) || optTruthy (get_text ti [pk "nonSort"])
          || optTruthy (get_text ti [pk "subTitle"])) = true
      · rw [if_pos h1]
        by_cases h2 : (compose_title (get_text ti [pk "nonSort"]) (get_text ti [pk "title"])
            (get_text ti [pk "subTitle"]) != "") = true
        · rw [if_pos h2]; exact ⟨_, rfl⟩
        · rw [if_neg h2]; exact ⟨_, rfl⟩
      · rw [if_neg h1]; exact ⟨_, rfl⟩
    · rw [if_neg hv]; exact ⟨tail, htail⟩

theorem roleTermsCreator_ok :
    ∀ l : List Node, (∀ x ∈ l, wf x = true) → ∃ b, roleTermsCreator l = Except.ok b := by
  intro l
  induction l with
  | nil => intro _; exact ⟨false, rfl⟩
  | cons rt rest ih =>
    intro h
    obtain ⟨tail, htail⟩ := ih (fun x hx => h x (by simp [hx]))
    have hcode : ∃ b, (match rt with
        | Node.dict _ => (attrOr rt "@type").map (fun s => pyLower s == "code")
        | _ => (Except.ok false : Except Unit Bool)) = Except.ok b := by
      cases rt with
      | dict l2 =>
        obtain ⟨s, hs⟩ := attrOr_wf_ok (.dict l2) "@type" (h _ (by simp)) (by decide)
        exact ⟨pyLower s == "code", by rw [hs]; rfl⟩
      | null => exact ⟨false, rfl⟩
      | str t => exact ⟨false, rfl⟩
      | list xs => exact ⟨false, rfl⟩
    obtain ⟨b, hb⟩ := hcode
    simp only [roleTermsCreator]
    rw [hb, except_ok_bind, htail, except_ok_bind]
    exact ⟨_, rfl⟩

theorem rolesCreator_ok :
    ∀ l : List Node, (∀ x ∈ l, wf x = true) → ∃ b, rolesCreator l = Except.ok b := by
  intro l
  induction l with
  | nil => intro _; exact ⟨false, rfl⟩
  | cons role rest ih =>
    intro h
    obtain ⟨b1, hb1⟩ := roleTermsCreator_ok (as_list (nget role "roleTerm"))
      (wf_elem role "roleTerm" (h role (by simp)))
    obtain ⟨b2, hb2⟩ := ih (fun x hx => h x (by simp [hx]))
    simp only [rolesCreator]
    rw [hb1, except_ok_bind, hb2, except_ok_bind]
    exact ⟨_, rfl⟩

theorem extract_creators_loop_ok :
    ∀ l : List Node, (∀ x ∈ l, wf x = true) → ∃ out, extract_creators_loop l = Except.ok out := by
  intro l
  induction l with
  | nil => intro _; exact ⟨[], rfl⟩
  | cons n rest ih =>
    intro h
    obtain ⟨s, hs⟩ := attrOr_map_lower_ok n "@type" (h n (by simp)) (by decide)
    obtain ⟨tail, htail⟩ := ih (fun x hx => h x (by simp [hx]))
    simp only [extract_creators_loop]
    rw [hs, except_ok_bind]
    by_cases hskip : (s != "" && s != "personal") = true
    · rw [if_pos hskip]; exact ⟨tail, htail⟩
    · rw [if_neg hskip]
      obtain ⟨isc, hisc⟩ := rolesCreator_ok (as_list (nget n "role"))
        (wf_elem n "role" (h n (by simp)))
      rw [hisc, except_ok_bind]
      have hkeep : ∃ keep, (if isc = true then (pure true : Except Unit Bool)
          else do
            let usage ← Except.map pyLower (attrOr n "@usage")
            pure (usage == "primary")) = Except.ok keep := by
        by_cases hc : isc = true
        · exact ⟨true, by rw [if_pos hc]; rfl⟩
        · obtain ⟨u, hu⟩ := attrOr_map_lower_ok n "@usage" (h n (by simp)) (by decide)
          exact ⟨u == "primary", by rw [if_neg hc, hu, except_ok_bind]; rfl⟩
      obtain ⟨keep, hk⟩ := hkeep
      rw [hk, except_ok_bind]
      by_cases hkt : keep = true
      · rw [if_pos hkt]
        obtain ⟨disp, hdisp⟩ := display_name_ok n (h n (by simp))
        rw [hdisp, except_ok_bind, htail, except_ok_bind]
        exact ⟨_, rfl⟩
      · rw [if_neg hkt]; exact ⟨tail, htail⟩

theorem personal_split_loop_ok :
    ∀ l : List Node, (∀ x ∈ l, wf x = true) → ∃ out, personal_split_loop l = Except.ok out := by
  intro l
  induction l with
  | nil => intro _; exact ⟨[], rfl⟩
  | cons n rest ih =>
    intro h
    obtain ⟨s, hs⟩ := attrOr_map_lower_ok n "@type" (h n (by simp)) (by decide)
    obtain ⟨tail, htail⟩ := ih (fun x hx => h x (by simp [hx]))
    simp only [personal_split_loop]
    rw [hs, except_ok_bind]
    by_cases hskip : (s != "" && s != "personal") = true
    · rw [if_pos hskip]; exact ⟨tail, htail⟩
    · rw [if_neg hskip]
      obtain ⟨disp, hdisp⟩ := display_name_ok n (h n (by simp))
      rw [hdisp, except_ok_bind, htail, except_ok_bind]
      exact ⟨_, rfl⟩

theorem get_text_single (n : Node) (k : String) : get_text n [pk k] = textOf (nget n k) := by
  cases n with
  | dict l =>
    simp only [get_text, nget, pk]
    cases pairsLookup l k with
    | some v => rfl
    | none =>
      cases findLocal l k with
      | some v => rfl
      | none => rfl
  | null => rfl
  | str s => rfl
  | list xs => rfl

theorem head_some_of_optTruthy (n : Node)
    (h : optTruthy (get_text n [pk "namePart"]) = true) :
    ∃ h0, (as_list (nget n "namePart")).head? = some h0 := by
  rw [get_text_single] at h
  cases hv : nget n "namePart" with
  | null => rw [hv] at h; simp [textOf, optTruthy] at h
  | str s => exact ⟨.str s, rfl⟩
  | list xs => rw [hv] at h; simp [textOf, optTruthy] at h
  | dict d => exact ⟨.dict d, rfl⟩

theorem corporateCond_ok (n : Node) (ntype : String) :
    ∃ b, corporateCond n ntype = Except.ok b := by
  by_cases h1 : (ntype == "corporate") = true
  · exact ⟨true, by unfold corporateCond; rw [if_pos h1]⟩
  · by_cases h2 : (ntype == "") = true
    · by_cases h3 : optTruthy (get_text n [pk "namePart"]) = true
      · obtain ⟨h0, hh⟩ := head_some_of_optTruthy n h3
        cases h0 with
        | str s0 =>
          refine ⟨s0 != "", ?_⟩
          unfold corporateCond
          rw [if_neg h1, if_pos h2, if_pos h3, hh]
        | null =>
          refine ⟨true, ?_⟩
          unfold corporateCond
          rw [if_neg h1, if_pos h2, if_pos h3, hh]
        | list l0 =>
          refine ⟨true, ?_⟩
          unfold corporateCond
          rw [if_neg h1, if_pos h2, if_pos h3, hh]
        | dict d0 =>
          refine ⟨true, ?_⟩
          unfold corporateCond
          rw [if_neg h1, if_pos h2, if_pos h3, hh]
      · exact ⟨false, by unfold corporateCond; rw [if_neg h1, if_pos h2, if_neg h3]⟩
    · exact ⟨false, by unfold corporateCond; rw [if_neg h1, if_neg h2]⟩

theorem extract_corporate_loop_ok :
    ∀ l : List Node, (∀ x ∈ l, wf x = true) → ∃ out, extract_corporate_loop l = Except.ok out := by
  intro l
  induction l with
  | nil => intro _; exact ⟨[], rfl⟩
  | cons n rest ih =>
    intro h
    obtain ⟨s, hs⟩ := attrOr_map_lower_ok n "@type" (h n (by simp)) (by decide)
    obtain ⟨tail, htail⟩ := ih (fun x hx => h x (by simp [hx]))
    obtain ⟨b, hb⟩ := corporateCond_ok n s
    simp only [extract_corporate_loop]
    rw [hs, except_ok_bind, hb, except_ok_bind]
    by_cases hbt : b = true
    · rw [if_pos hbt]
      obtain ⟨disp, hdisp⟩ := display_name_ok n (h n (by simp))
      rw [hdisp, except_ok_bind, htail, except_ok_bind]
      exact ⟨_, rfl⟩
    · rw [if_neg hbt]; exact ⟨tail, htail⟩

theorem issue_loop_ok :
    ∀ l : List Node, (∀ x ∈ l, wf x = true) → ∃ out, issue_loop l = Except.ok out := by
  intro l
  induction l with
  | nil => intro _; exact ⟨[], rfl⟩
  | cons idn rest ih =>
    intro h
    obtain ⟨s, hs⟩ := attrOr_map_lower_ok idn "@type" (h idn (by simp)) (by decide)
    obtain ⟨tail, htail⟩ := ih (fun x hx => h x (by simp [hx]))
    simp only [issue_loop]
    rw [hs, except_ok_bind, htail, except_ok_bind]
    exact ⟨_, rfl⟩

theorem hollis_rid_loop_ok :
    ∀ l : List Node, (∀ x ∈ l, wf x = true) → ∃ out, hollis_rid_loop l = Except.ok out := by
  intro l
  induction l with
  | nil => intro _; exact ⟨"", rfl⟩
  | cons ridnode rest ih =>
    intro h
    obtain ⟨s, hs⟩ := attrOr_map_lower_ok ridnode "@source" (h ridnode (by simp)) (by decide)
    obtain ⟨tail, htail⟩ := ih (fun x hx => h x (by simp [hx]))
    simp only [hollis_rid_loop]
    rw [hs, except_ok_bind]
    by_cases hc : ((get_text ridnode []).getD "" != "" &&
        (pyContains s "alma" || pyStartsWith ((get_text ridnode []).getD "") "99")) = true
    · rw [if_pos hc]; exact ⟨_, rfl⟩
    · rw [if_neg hc]; exact ⟨tail, htail⟩

theorem permalink_rel_loop_ok :
    ∀ l : List Node, (∀ x ∈ l, wf x = true) →
      ∃ out, permalink_rel_loop l = Except.ok out := by
  intro l
  induction l with
  | nil => intro _; exact ⟨none, rfl⟩
  | cons rel rest ih =>
    intro h
    obtain ⟨s, hs⟩ := attrOr_map_lower_ok rel "@otherType" (h rel (by simp)) (by decide)
    obtain ⟨tail, htail⟩ := ih (fun x hx => h x (by simp [hx]))
    simp only [permalink_rel_loop]
    rw [hs, except_ok_bind]
    by_cases hc : pyContains s "hollis" = true
    · rw [if_pos hc]
      split
      · rename_i url _
        by_cases hu : (url != "") = true
        · rw [if_pos hu]; exact ⟨some url, rfl⟩
        · rw [if_neg hu]; exact ⟨tail, htail⟩
      · exact ⟨tail, htail⟩
    · rw [if_neg hc]; exact ⟨tail, htail⟩

theorem notes_loop_ok :
    ∀ l : List Node, (∀ x ∈ l, wf x = true) → ∃ out, notes_loop l = Except.ok out := by
  intro l
  induction l with
  | nil => intro _; exact ⟨[], rfl⟩
  | cons note rest ih =>
    intro h
    obtain ⟨tail, htail⟩ := ih (fun x hx => h x (by simp [hx]))
    simp only [notes_loop]
    split
    · rename_i txt _
      by_cases ht : (txt != "") = true
      · rw [if_pos ht]
        obtain ⟨s, hs⟩ := attrOr_wf_ok note "@type" (h note (by simp)) (by decide)
        have hs2 : Except.map pyStrip (attrOr note "@type") = Except.ok (pyStrip s) := by
          rw [hs]; rfl
        rw [hs2, except_ok_bind, htail, except_ok_bind]
        exact ⟨_, rfl⟩
      · rw [if_neg ht]; exact ⟨tail, htail⟩
    · exact ⟨tail, htail⟩

theorem itemModsOr_ok (item : Node) (hd : isDict item = true) :
    ∃ m, itemModsOr item = Except.ok m := by
  cases item with
  | dict l => exact ⟨_, rfl⟩
  | null => simp [isDict] at hd
  | str s => simp [isDict] at hd
  | list xs => simp [isDict] at hd

theorem itemModsOr_wf (item m : Node) (hwf : wf item = true)
    (h : itemModsOr item = Except.ok m) : wf m = true := by
  cases item with
  | dict l =>
    rw [wf] at hwf
    have hm : (match pairsLookup l "mods" with
        | some v => if truthy v then v else Node.dict []
        | none => Node.dict []) = m := Except.ok.inj h
    cases hp : pairsLookup l "mods" with
    | some v =>
      rw [hp] at hm
      have hm2 : (if truthy v = true then v else Node.dict []) = m := hm
      by_cases htr : truthy v = true
      · rw [if_pos htr] at hm2
        subst hm2
        exact (wfPairs_parts l hwf "mods" v (pairsLookup_mem l "mods" v hp)).2.2
      · rw [if_neg htr] at hm2
        subst hm2
        rfl
    | none =>
      rw [hp] at hm
      have hm2 : Node.dict [] = m := hm
      subst hm2
      rfl
  | null => exact Except.noConfusion h
  | str s => exact Except.noConfusion h
  | list xs => exact Except.noConfusion h

theorem extract_title_ok (mods : Node) (hwf : wf mods = true) :
    ∃ v, extract_title mods = Except.ok v := by
  obtain ⟨out, hout⟩ := extract_title_loop_ok _ (wf_elem mods "titleInfo" hwf)
  exact ⟨out.headD "", by simp only [extract_title]; rw [hout]; rfl⟩

theorem extract_variant_ok (mods : Node) (hwf : wf mods = true) :
    ∃ v, extract_variant_titles mods = Except.ok v := by
  obtain ⟨out, hout⟩ := extract_variant_loop_ok _ (wf_elem mods "titleInfo" hwf)
  exact ⟨join_clean out, by simp only [extract_variant_titles]; rw [hout]; rfl⟩

theorem extract_creators_ok (mods : Node) (hwf : wf mods = true) :
    ∃ v, extract_creators mods = Except.ok v := by
  obtain ⟨out, hout⟩ := extract_creators_loop_ok _ (wf_elem mods "name" hwf)
  exact ⟨_, by simp only [extract_creators]; rw [hout]; rfl⟩

theorem extract_personal_names_split_ok (mods : Node) (hwf : wf mods = true) :
    ∃ v, extract_personal_names_split mods = Except.ok v := by
  obtain ⟨out, hout⟩ := personal_split_loop_ok _ (wf_elem mods "name" hwf)
  exact ⟨_, by simp only [extract_personal_names_split]; rw [hout]; rfl⟩

theorem extract_corporate_ok (mods : Node) (hwf : wf mods = true) :
    ∃ v, extract_corporate_names mods = Except.ok v := by
  obtain ⟨out, hout⟩ := extract_corporate_loop_ok _ (wf_elem mods "name" hwf)
  exact ⟨_, by simp only [extract_corporate_names]; rw [hout]; rfl⟩

theorem extract_issue_ok (mods : Node) (hwf : wf mods = true) :
    ∃ v, extract_issue_number mods = Except.ok v := by
  obtain ⟨out, hout⟩ := issue_loop_ok _ (wf_elem mods "identifier" hwf)
  exact ⟨_, by simp only [extract_issue_number]; rw [hout]; rfl⟩

theorem extract_notes_ok (mods : Node) (hwf : wf mods = true) :
    ∃ v, extract_notes mods = Except.ok v := by
  obtain ⟨out, hout⟩ := notes_loop_ok _ (wf_elem mods "note" hwf)
  exact ⟨out, hout⟩

theorem extract_hollis_ok (mods item : Node) (hwf : wf mods = true) :
    ∃ v, extract_hollis_number mods item = Except.ok v := by
  have hL : ∀ x ∈ (as_list (nget mods "recordInfo")).flatMap
      (fun ri => as_list (nget ri "recordIdentifier")), wf x = true := by
    intro x hx
    obtain ⟨ri, hri, hx2⟩ := List.mem_flatMap.mp hx
    exact wf_elem ri "recordIdentifier" (wf_elem mods "recordInfo" hwf ri hri) x hx2
  obtain ⟨rid, hrid⟩ := hollis_rid_loop_ok _ hL
  simp only [extract_hollis_number]
  rw [hrid, except_ok_bind]
  by_cases hr : (rid != "") = true
  · rw [if_pos hr]; exact ⟨rid, rfl⟩
  · rw [if_neg hr]
    split
    · exact ⟨_, rfl⟩
    · split
      · exact ⟨_, rfl⟩
      · exact ⟨"", rfl⟩

theorem extract_permalink_ok (item : Node) (hd : isDict item = true) (hwf : wf item = true) :
    ∃ v, extract_permalink item = Except.ok v := by
  obtain ⟨m, hm⟩ := itemModsOr_ok item hd
  have hwm := itemModsOr_wf item m hwf hm
  obtain ⟨r, hr⟩ := permalink_rel_loop_ok (as_list (nget m "relatedItem"))
    (wf_elem m "relatedItem" hwm)
  simp only [extract_permalink]
  rw [hm, except_ok_bind, hr, except_ok_bind]
  cases r with
  | some url => exact ⟨url, rfl⟩
  | none => exact ⟨_, rfl⟩

/-- C9 counterexample: row building can raise. On the concrete item
whose titleInfo type attribute is a truthy non-string, the source
expression (ti.get("@type") or "").lower() raises an attribute error,
so the row is aborted with an error rather than degraded to empty
fields. -/
theorem row_from_item_raises : row_from_item c9bad = Except.error () := by decide

/-- C9 (amended): for every record item that is a mapping and whose
tree is well formed (every attribute value under an "@" key is a string
or falsy, and every namePart entry resolves text when it is a mapping -
both guaranteed for trees the XML parser produces), building a row
never raises: row_from_item returns a row for every such input, with
every extractor degrading to empty output where data is missing. -/
theorem row_from_item_total_wf (item : Node) (hd : isDict item = true)
    (hwf : wf item = true) : ∃ r, row_from_item item = Except.ok r := by
  obtain ⟨m, hm⟩ := itemModsOr_ok item hd
  have hwm := itemModsOr_wf item m hwf hm
  obtain ⟨names, hnames⟩ := extract_personal_names_split_ok m hwm
  obtain ⟨hol, hhol⟩ := extract_hollis_ok m item hwm
  obtain ⟨ti, hti⟩ := extract_title_ok m hwm
  obtain ⟨va, hva⟩ := extract_variant_ok m hwm
  obtain ⟨cr, hcr⟩ := extract_creators_ok m hwm
  obtain ⟨co, hco⟩ := extract_corporate_ok m hwm
  obtain ⟨isn, hisn⟩ := extract_issue_ok m hwm
  obtain ⟨pl, hpl⟩ := extract_permalink_ok item hd hwf
  obtain ⟨no, hno⟩ := extract_notes_ok m hwm
  simp only [row_from_item]
  rw [hm, except_ok_bind, hnames, except_ok_bind, hhol, except_ok_bind, hti, except_ok_bind,
    hva, except_ok_bind, hcr, except_ok_bind, hco, except_ok_bind, hisn, except_ok_bind,
    hpl, except_ok_bind, hno, except_ok_bind]
  exact ⟨_, rfl⟩

/-- C9 witness. -/
theorem row_from_item_total_wf_witness :
    isDict c9good = true ∧ wf c9good = true ∧ ∃ r, row_from_item c9good = Except.ok r :=
  ⟨by decide, by decide, row_from_item_total_wf c9good (by decide) (by decide)⟩

end GetHLMeta
